import Mathlib

/-!
Verification of the MAME-Embedded-Database pipeline.

This file shallowly embeds the two Python programs of the repository:

* `build_mame_database.py` (namespace `Builder`): XML ingest filtering
  (`parse_machine` / `is_valid_rom_size`), the per-machine ingestion loop of
  `process_dat_file`, the shared-BIOS pass `extract_neogeo_bios`, and
  `cleanup_orphans`.
* `generate_embedded_database.py` (namespace `Gen`): `load_database`,
  `remap_ids` (with `make_rom_id` width checking), `build_strings_pool`,
  `build_descriptions_pool` and the record encoders of `generate_binary`.

Tables are lists of rows in rowid (insertion) order; SQL queries are
translated into list operations; Python exceptions (`bytes.fromhex`
failures, `make_rom_id` overflow) become `Except`.  Python `str`/`bytes`
values that are only compared or concatenated are `String`s on the builder
side; on the generator side strings are lists of Unicode code points
(`Str`) so that UTF-8 encoding and lexicographic sorting are explicit.
All machine integers are `Nat` with explicit truncation (`% 2^w`) where
the code truncates.
-/

/-! ## Shared list and byte infrastructure -/

/-- Lexicographic `≤` test on lists of naturals: the comparison used by
Python on `str`-as-code-points and by SQLite/`memcmp` on BLOBs. -/
def lexLeB : List Nat → List Nat → Bool
  | [], _ => true
  | _ :: _, [] => false
  | a :: as, b :: bs =>
    if a < b then true
    else if b < a then false
    else lexLeB as bs

/-- Lexicographic `≤` on lists of naturals, as a relation. -/
def ListNatLe (x y : List Nat) : Prop := lexLeB x y = true

/-- Strict lexicographic `<` on lists of naturals. -/
def ListNatLt (x y : List Nat) : Prop := ListNatLe x y ∧ x ≠ y

instance : DecidableRel ListNatLe := fun x y => by
  unfold ListNatLe; infer_instance

instance : DecidableRel ListNatLt := fun x y => by
  unfold ListNatLt; exact instDecidableAnd

theorem lexLeB_total (a b : List Nat) : lexLeB a b = true ∨ lexLeB b a = true := by
  induction a generalizing b with
  | nil => left; rfl
  | cons x xs ih =>
    cases b with
    | nil => right; rfl
    | cons y ys =>
      by_cases h1 : x < y
      · left; simp [lexLeB, h1]
      · by_cases h2 : y < x
        · right; simp [lexLeB, h2]
        · have hxy : x = y := Nat.le_antisymm (Nat.not_lt.mp h2) (Nat.not_lt.mp h1)
          subst hxy
          rcases ih ys with h | h
          · left; simpa [lexLeB, h1] using h
          · right; simpa [lexLeB, h1] using h

theorem lexLeB_trans {a b c : List Nat} (h1 : lexLeB a b = true) (h2 : lexLeB b c = true) :
    lexLeB a c = true := by
  induction a generalizing b c with
  | nil => rfl
  | cons x xs ih =>
    cases b with
    | nil => simp [lexLeB] at h1
    | cons y ys =>
      cases c with
      | nil => simp [lexLeB] at h2
      | cons z zs =>
        simp only [lexLeB] at h1 h2 ⊢
        by_cases hxy : x < y
        · by_cases hyz : y < z
          · simp [Nat.lt_trans hxy hyz]
          · by_cases hzy : z < y
            · simp only [hyz, if_false, hzy, if_true] at h2
              cases h2
            · have : y = z := Nat.le_antisymm (Nat.not_lt.mp hzy) (Nat.not_lt.mp hyz)
              subst this
              simp [hxy]
        · by_cases hyx : y < x
          · simp only [hxy, if_false, hyx, if_true] at h1
            cases h1
          · have : x = y := Nat.le_antisymm (Nat.not_lt.mp hyx) (Nat.not_lt.mp hxy)
            subst this
            simp only [hxy, if_false, lt_irrefl, if_false] at h1 ⊢
            by_cases hyz : x < z
            · simp [hyz]
            · by_cases hzy : z < x
              · simp only [hyz, if_false, hzy, if_true] at h2
                cases h2
              · have : x = z := Nat.le_antisymm (Nat.not_lt.mp hzy) (Nat.not_lt.mp hyz)
                subst this
                simp only [lt_irrefl, if_false] at h2 ⊢
                exact ih h1 h2

theorem lexLeB_antisymm {a b : List Nat} (h1 : lexLeB a b = true) (h2 : lexLeB b a = true) :
    a = b := by
  induction a generalizing b with
  | nil =>
    cases b with
    | nil => rfl
    | cons y ys => simp [lexLeB] at h2
  | cons x xs ih =>
    cases b with
    | nil => simp [lexLeB] at h1
    | cons y ys =>
      simp only [lexLeB] at h1 h2
      by_cases hxy : x < y
      · simp only [Nat.not_lt.mpr (Nat.le_of_lt hxy), if_neg (Nat.lt_asymm hxy), hxy,
          if_true] at h2
        cases h2
      · by_cases hyx : y < x
        · simp only [hxy, if_false, hyx, if_true] at h1
          cases h1
        · have hxye : x = y := Nat.le_antisymm (Nat.not_lt.mp hyx) (Nat.not_lt.mp hxy)
          subst hxye
          simp only [lt_irrefl, if_false] at h1 h2
          rw [ih h1 h2]

instance : IsTotal (List Nat) ListNatLe := ⟨fun a b => lexLeB_total a b⟩
instance : IsTrans (List Nat) ListNatLe := ⟨fun _ _ _ => lexLeB_trans⟩
instance : IsAntisymm (List Nat) ListNatLe := ⟨fun _ _ => lexLeB_antisymm⟩

theorem listNatLe_nil_right {a : List Nat} (h : ListNatLe a []) : a = [] := by
  cases a with
  | nil => rfl
  | cons x xs => simp [ListNatLe, lexLeB] at h

/-- `List.any` over `List.replicate`. -/
theorem any_replicate (n : Nat) (a : α) (p : α → Bool) :
    (List.replicate n a).any p = (decide (n ≠ 0) && p a) := by
  induction n with
  | zero => simp
  | succ m ih => rw [List.replicate_succ, List.any_cons, ih]; cases h : p a <;> simp [h]

/-- `List.dedup` of a nonempty `List.replicate`. -/
theorem dedup_replicate [DecidableEq α] (n : Nat) (a : α) (h : n ≠ 0) :
    (List.replicate n a).dedup = [a] := by
  induction n with
  | zero => simp at h
  | succ m ih =>
    rw [List.replicate_succ]
    cases m with
    | zero => simp
    | succ k =>
      rw [List.dedup_cons_of_mem (by simp [List.mem_replicate]), ih (by simp)]

/-- `List.find?` over a nonempty `List.replicate` whose element matches. -/
theorem find?_replicate_pos (n : Nat) (a : α) (p : α → Bool) (h : n ≠ 0) (hp : p a = true) :
    (List.replicate n a).find? p = some a := by
  cases n with
  | zero => simp at h
  | succ m => rw [List.replicate_succ, List.find?_cons_of_pos _ hp]

/-! ## Builder: data model (`build_mame_database.py`) -/

namespace Builder

/-- `NEOGEO_BIOS_THRESHOLD` (line 58).  The spec treats the threshold as
configuration, so the passes below take it as a parameter; this constant is
the default. -/
def NEOGEO_BIOS_THRESHOLD : Nat := 4000

/-- `MIN_ROM_SIZE` (line 56). -/
def MIN_ROM_SIZE : Int := 256

/-- `MAX_ROM_SIZE` (line 57). -/
def MAX_ROM_SIZE : Int := 8 * 1024 * 1024

/-- A row of the `manufacturers` table. -/
structure ManufacturerRow where
  id : Nat
  name : String
deriving DecidableEq, Repr

/-- A row of the `rom_names` table. -/
structure RomNameRow where
  id : Nat
  name : String
deriving DecidableEq, Repr

/-- A row of the `roms` table.  `sha1` and `crc` are byte blobs;
`name_id` is the canonical-name reference (the builder always writes it
non-NULL, so it is a plain `Nat` here). -/
structure RomRow where
  id : Nat
  sha1 : List Nat
  crc : Option (List Nat)
  size_pow2 : Nat
  name_id : Nat
deriving DecidableEq, Repr

/-- A row of the `machines` table.  The description is kept as the opaque
compressed payload; since no pass inspects its bytes, zlib compression is
modelled as the identity embedding of the source text. -/
structure MachineRow where
  id : Nat
  name : String
  cloneof_id : Option Nat
  romof_id : Option Nat
  description : Option String
  year : Option Nat
  manufacturer_id : Option Nat
deriving DecidableEq, Repr

/-- A row of the `machine_roms` table (the builder always writes `name_id`
non-NULL). -/
structure MrRow where
  machine_id : Nat
  rom_id : Nat
  name_id : Nat
deriving DecidableEq, Repr

/-- The five tables of the SQLite database, each in rowid (insertion)
order. -/
structure DbState where
  manufacturers : List ManufacturerRow
  rom_names : List RomNameRow
  roms : List RomRow
  machines : List MachineRow
  machine_roms : List MrRow
deriving DecidableEq, Repr

/-- The empty database created by `create_database`. -/
def emptyDb : DbState := ⟨[], [], [], [], []⟩

def maxManufId (st : DbState) : Nat := (st.manufacturers.map (·.id)).foldr max 0

def maxRomNameId (st : DbState) : Nat := (st.rom_names.map (·.id)).foldr max 0

def maxRomId (st : DbState) : Nat := (st.roms.map (·.id)).foldr max 0

/-- `SELECT MAX(id) FROM machines` with NULL mapped to 0 (lines 654-655). -/
def maxMachineId (st : DbState) : Nat := (st.machines.map (·.id)).foldr max 0

/-! ## Builder: ingest filtering (`parse_machine`, lines 388-436) -/

/-- A `<rom>` element: attribute values as read from the XML, with the
`size` attribute already taken through Python `int(...)` (`none` when the
attribute is absent, empty or unparseable, matching lines 415-419). -/
structure RomElem where
  name : String
  size : Option Int
  crc : Option String
  sha1 : Option String
deriving DecidableEq, Repr

/-- A `<machine>`/`<game>` element with its child data; `year` is already
parsed as in lines 400-407 (`none` on absence or parse failure). -/
structure MachineElem where
  name : Option String
  cloneof : Option String
  romof : Option String
  description : Option String
  year : Option Nat
  manufacturer : Option String
  roms : List RomElem
deriving DecidableEq, Repr

/-- `is_valid_rom_size` (lines 380-385). -/
def is_valid_rom_size : Option Int → Bool
  | none => false
  | some size =>
    if size < MIN_ROM_SIZE || size > MAX_ROM_SIZE then false
    else decide (0 < size) && (size.toNat &&& (size.toNat - 1)) == 0

/-- A ROM surviving the per-ROM filter of `parse_machine`. -/
structure ParsedRom where
  name : String
  size : Int
  crc : Option String
  sha1 : String
deriving DecidableEq, Repr

/-- The ROM-filtering loop of `parse_machine` (lines 413-434): drop ROMs
with an invalid size, then drop ROMs whose `sha1` attribute is absent or
empty (`if not sha1`). -/
def parseRoms : List RomElem → List ParsedRom
  | [] => []
  | r :: rs =>
    let rest := parseRoms rs
    match r.size with
    | none => rest
    | some sz =>
      if is_valid_rom_size (some sz) then
        match r.sha1 with
        | none => rest
        | some s => if s.isEmpty then rest else ⟨r.name, sz, r.crc, s⟩ :: rest
      else rest

/-- The spec predicate of claim C1: a well-formed `sha1` attribute value is
exactly 40 hexadecimal characters.  Used only to state the claim. -/
def is40Hex (s : String) : Bool :=
  s.length == 40 && s.data.all fun ch =>
    ch.isDigit || (97 ≤ ch.toNat && ch.toNat ≤ 102) || (65 ≤ ch.toNat && ch.toNat ≤ 70)

end Builder

namespace Builder

/-! ## Builder: per-machine ingestion (`process_dat_file`, lines 439-569) -/

/-- Value of one hexadecimal digit character. -/
def hexVal (ch : Char) : Option Nat :=
  if ch.isDigit then some (ch.toNat - 48)
  else if 97 ≤ ch.toNat && ch.toNat ≤ 102 then some (ch.toNat - 87)
  else if 65 ≤ ch.toNat && ch.toNat ≤ 70 then some (ch.toNat - 55)
  else none

/-- Python `bytes.fromhex` on a whitespace-free string: pairs of hex digits
become bytes; a non-hex character or an odd length raises `ValueError`
(modelled as `none`). -/
def bytesFromHexL : List Char → Option (List Nat)
  | [] => some []
  | [_] => none
  | a :: b :: rest => do
    let hi ← hexVal a
    let lo ← hexVal b
    let tail ← bytesFromHexL rest
    pure ((hi * 16 + lo) :: tail)

/-- `bytes.fromhex` on a `String`. -/
def bytesFromHex (s : String) : Option (List Nat) := bytesFromHexL s.data

/-- A machine accumulated in `machines_data` (lines 445, 498-506): the
`cloneof`/`romof` name references are still raw strings, resolved at the
end of the file. -/
structure PendingMachine where
  id : Nat
  name : String
  cloneof : Option String
  romof : Option String
  description : Option String
  year : Option Nat
  manufacturer_id : Option Nat
deriving DecidableEq, Repr

/-- The working state of `process_dat_file`: the live database connection,
the `roms_cache` dict keyed by the sha1 hex string (text, not bytes:
lines 520, 530), the deferred `machines_data` and `machine_roms_data`
lists, the `existing_machines` name set and the `machine_id` counter. -/
structure IngestCtx where
  db : DbState
  romsCache : List (String × Nat × Nat)
  pending : List PendingMachine
  mrData : List MrRow
  existing : List String
  nextMachineId : Nat
deriving DecidableEq, Repr

/-- The fresh context of a full build (`create_database` plus the empty
caches of lines 864-867). -/
def initialCtx : IngestCtx := ⟨emptyDb, [], [], [], [], 0⟩

/-- Get-or-create in `rom_names` (lines 513-517); fresh rowids follow
SQLite AUTOINCREMENT, monotonically above every existing id. -/
def internRomName (db : DbState) (nm : String) : Nat × DbState :=
  match db.rom_names.find? (fun n => n.name == nm) with
  | some n => (n.id, db)
  | none =>
    let nid := maxRomNameId db + 1
    (nid, { db with rom_names := db.rom_names ++ [⟨nid, nm⟩] })

/-- Get-or-create in `manufacturers` (lines 482-486). -/
def internManuf (db : DbState) (nm : String) : Nat × DbState :=
  match db.manufacturers.find? (fun m => m.name == nm) with
  | some m => (m.id, db)
  | none =>
    let mid := maxManufId db + 1
    (mid, { db with manufacturers := db.manufacturers ++ [⟨mid, nm⟩] })

/-- `int(math.log2(size))` (line 523), exact for the powers of two that
survive `is_valid_rom_size`; fuel-structured so it evaluates by kernel
reduction. -/
def log2Fuel : Nat → Nat → Nat
  | _, 0 => 0
  | n, fuel + 1 => if n < 2 then 0 else log2Fuel (n / 2) fuel + 1

/-- Base-2 logarithm, rounded down. -/
def intLog2 (n : Nat) : Nat := log2Fuel n n

/-- One iteration of the ROM loop (lines 509-534): intern the filename,
deduplicate the ROM by its sha1 hex string, inserting a new `roms` row on a
cache miss (where `bytes.fromhex` may raise), and record the
`machine_roms` row. -/
def processRom (c : IngestCtx) (machineId : Nat) (pr : ParsedRom) :
    Except String IngestCtx :=
  let (nameId, db1) := internRomName c.db pr.name
  match c.romsCache.lookup pr.sha1 with
  | some (romId, _) =>
    .ok { c with db := db1, mrData := c.mrData ++ [⟨machineId, romId, nameId⟩] }
  | none =>
    match bytesFromHex pr.sha1 with
    | none => .error "ValueError: invalid sha1 hex string"
    | some sha1bin =>
      let crcRes : Except String (Option (List Nat)) :=
        match pr.crc with
        | none => .ok none
        | some cs =>
          if cs.isEmpty then .ok none
          else match bytesFromHex cs with
            | none => .error "ValueError: invalid crc hex string"
            | some b => .ok (some b)
      match crcRes with
      | .error e => .error e
      | .ok crcbin =>
        let sizePow2 := intLog2 pr.size.toNat
        let romId := maxRomId db1 + 1
        let db2 := { db1 with roms := db1.roms ++ [⟨romId, sha1bin, crcbin, sizePow2, nameId⟩] }
        .ok { c with
          db := db2
          romsCache := c.romsCache ++ [(pr.sha1, romId, nameId)]
          mrData := c.mrData ++ [⟨machineId, romId, nameId⟩] }

/-- The ROM loop of one machine. -/
def processRomList (mid : Nat) : IngestCtx → List ParsedRom → Except String IngestCtx
  | c, [] => .ok c
  | c, pr :: prs =>
    match processRom c mid pr with
    | .error e => .error e
    | .ok c1 => processRomList mid c1 prs

/-- One iteration of the machine loop (lines 460-540): parse and filter,
skip machines with no surviving ROM or no name, skip names already seen
(first-ingest wins), otherwise allocate the next machine id, intern the
manufacturer, store the pending machine and process its ROMs. -/
def processMachineElem (c : IngestCtx) (e : MachineElem) : Except String IngestCtx :=
  let roms := parseRoms e.roms
  let name := e.name.getD ""
  if roms.isEmpty || name.isEmpty then .ok c
  else if c.existing.contains name then .ok c
  else
    let mid := c.nextMachineId + 1
    let (manufId, db1) :=
      match e.manufacturer with
      | none => (none, c.db)
      | some mn =>
        if mn.isEmpty then (none, c.db)
        else
          let (i, d) := internManuf c.db mn
          (some i, d)
    let desc :=
      match e.description with
      | none => none
      | some d => if d.isEmpty then none else some d
    let pm : PendingMachine := ⟨mid, name, e.cloneof, e.romof, desc, e.year, manufId⟩
    let c1 := { c with
      db := db1
      existing := c.existing ++ [name]
      nextMachineId := mid
      pending := c.pending ++ [pm] }
    processRomList mid c1 roms

/-- The machine loop over a whole document. -/
def processElems : IngestCtx → List MachineElem → Except String IngestCtx
  | c, [] => .ok c
  | c, e :: es =>
    match processMachineElem c e with
    | .error err => .error err
    | .ok c1 => processElems c1 es

/-- End of `process_dat_file` (lines 544-568): build `name_to_id` from this
file's machines and the already-present machines (names are disjoint by the
first-ingest-wins check), resolve `cloneof`/`romof`, append the machines
and the collected `machine_roms` rows. -/
def finishFile (c : IngestCtx) : IngestCtx :=
  let nameToId : List (String × Nat) :=
    c.pending.map (fun pm => (pm.name, pm.id)) ++ c.db.machines.map (fun m => (m.name, m.id))
  let resolve : Option String → Option Nat := fun onm =>
    match onm with
    | none => none
    | some s => nameToId.lookup s
  { c with
    db := { c.db with
      machines := c.db.machines ++ c.pending.map (fun pm =>
        ⟨pm.id, pm.name, resolve pm.cloneof, resolve pm.romof,
          pm.description, pm.year, pm.manufacturer_id⟩)
      machine_roms := c.db.machine_roms ++ c.mrData }
    pending := []
    mrData := [] }

/-- `process_dat_file` on one parsed document. -/
def processDatFile (c : IngestCtx) (elems : List MachineElem) : Except String IngestCtx :=
  match processElems c elems with
  | .error e => .error e
  | .ok c1 => .ok (finishFile c1)

end Builder

namespace Builder

/-! ## Builder: post-processing (`extract_neogeo_bios`, lines 611-687, and
`cleanup_orphans`, lines 690-735) -/

/-- The rom ids selected by the grouping query of lines 623-629: the rows
of `machine_roms` are grouped by `rom_id` (joined against `roms`, whose
`id` is the primary key) and a group qualifies when its row count exceeds
the threshold.  `COUNT(mr.machine_id)` counts rows, `machine_id` being
NOT NULL. -/
def biosRomIds (st : DbState) (threshold : Nat) : List Nat :=
  (st.roms.filter fun r =>
    threshold < st.machine_roms.countP (fun mr => mr.rom_id == r.id)).map (·.id)

/-- The fixed description literal of lines 649-652 (compression modelled as
the identity payload embedding). -/
def NEOGEO_DESC : String :=
  "Neo-Geo BIOS ROMs - Shared system ROMs for all Neo-Geo games (MVS/AES)"

/-- Get-or-create of the SNK manufacturer (lines 640-646). -/
def internSNK (st : DbState) : Nat × DbState :=
  match st.manufacturers.find? (fun m => m.name == "SNK") with
  | some m => (m.id, st)
  | none =>
    let mid := maxManufId st + 1
    (mid, { st with manufacturers := st.manufacturers ++ [⟨mid, "SNK"⟩] })

/-- The id of the synthetic machine: `SELECT MAX(id) FROM machines` plus
one (lines 654-656). -/
def neogeoId (st : DbState) : Nat := maxMachineId st + 1

/-- `extract_neogeo_bios` (lines 611-687).  Early return when a machine
named `neogeo_bios` exists or no ROM exceeds the threshold; otherwise
intern SNK, insert the synthetic machine, link it to every qualifying ROM
(the filename taken from that ROM's first `machine_roms` row: the
`LIMIT 1` query of line 670 scans the `rom_id` index in rowid order, and
the rows inserted by this very loop carry other rom ids), then delete
every other link to a qualifying ROM. -/
def extract_neogeo_bios (threshold : Nat) (st : DbState) : DbState :=
  if st.machines.any (fun m => m.name == "neogeo_bios") then st
  else
    let bios := biosRomIds st threshold
    if bios.isEmpty then st
    else
      let snkSt := internSNK st
      let snkId := snkSt.1
      let st1 := snkSt.2
      let ngId := neogeoId st1
      let machines1 := st1.machines ++
        [⟨ngId, "neogeo_bios", none, none, some NEOGEO_DESC, some 1990, some snkId⟩]
      let newRows := bios.map fun rid =>
        let nid := ((st1.machine_roms.find? (fun mr => mr.rom_id == rid)).map (·.name_id)).getD 0
        MrRow.mk ngId rid nid
      let mrs1 := (st1.machine_roms ++ newRows).filter fun mr =>
        !(bios.contains mr.rom_id && mr.machine_id != ngId)
      { st1 with machines := machines1, machine_roms := mrs1 }

/-- Step 1 of `cleanup_orphans` (lines 696-699): the machines that keep at
least one `machine_roms` row. -/
def machinesWithRows (st : DbState) : List MachineRow :=
  st.machines.filter fun m => st.machine_roms.any (fun mr => mr.machine_id == m.id)

/-- The reference-nulling of step 4 (lines 721-733): keep a
`cloneof_id`/`romof_id` only when its target id is still present. -/
def keepRef (ids : List MachineRow) : Option Nat → Option Nat
  | none => none
  | some c => if ids.any (fun x => x.id == c) then some c else none

/-- Step 4 applied to one machine row. -/
def nullDangling (ids : List MachineRow) (m : MachineRow) : MachineRow :=
  { m with cloneof_id := keepRef ids m.cloneof_id, romof_id := keepRef ids m.romof_id }

/-- `cleanup_orphans` (lines 690-735), four steps in statement order:
delete machines with no `machine_roms` row; delete `rom_names` referenced
neither from `roms` nor from `machine_roms`; delete manufacturers not
referenced by the remaining machines; NULL out `cloneof_id`/`romof_id`
whose target id no longer exists. -/
def cleanup_orphans (st : DbState) : DbState :=
  let machines1 := machinesWithRows st
  let romNames1 := st.rom_names.filter fun n =>
    st.roms.any (fun r => r.name_id == n.id) ||
      st.machine_roms.any (fun mr => mr.name_id == n.id)
  let manufs1 := st.manufacturers.filter fun f =>
    machines1.any (fun m => m.manufacturer_id == some f.id)
  { st with
    machines := machines1.map (nullDangling machines1)
    rom_names := romNames1
    manufacturers := manufs1 }

/-- The PostProcessor: `extract_neogeo_bios` followed by `cleanup_orphans`
(main, lines 876-877). -/
def postProcess (threshold : Nat) (st : DbState) : DbState :=
  cleanup_orphans (extract_neogeo_bios threshold st)

end Builder

/-! ## Generator: data model (`generate_embedded_database.py`) -/

namespace Gen

/-- A string as its list of Unicode code points (Python `str`): explicit
enough for UTF-8 encoding and code-point-lexicographic sorting. -/
abbrev Str := List Nat

/-- `DEFAULT_MIN_SIZE_POW2` (line 41). -/
def DEFAULT_MIN_SIZE_POW2 : Nat := 11

/-- `DEFAULT_MAX_SIZE_POW2` (line 42). -/
def DEFAULT_MAX_SIZE_POW2 : Nat := 23

/-- `NULL_ID_24` (line 51). -/
def NULL_ID_24 : Nat := 0xFFFFFF

/-- `NULL_ID_16` (line 52). -/
def NULL_ID_16 : Nat := 0xFFFF

/-- `HEADER_SIZE` (line 55). -/
def HEADER_SIZE : Nat := 64

/-- `make_rom_id` (lines 71-75): `size_pow2` in the high 8 bits, index in
the low 16 bits; raises when the index exceeds 16 bits. -/
def make_rom_id (size_pow2 index : Nat) : Except String Nat :=
  if index > 0xFFFF then
    .error "ROM index exceeds 16-bit limit"
  else
    .ok ((size_pow2 <<< 16) ||| index)

/-- A row of the `roms` table as stored in SQLite (nullable `sha1` and
`name_id`). -/
structure DbRom where
  id : Nat
  sha1 : Option (List Nat)
  size_pow2 : Nat
  name_id : Option Nat
deriving DecidableEq, Repr

/-- A row of the `machines` table as stored in SQLite. -/
structure DbMachine where
  id : Nat
  name : Str
  cloneof_id : Option Nat
  romof_id : Option Nat
  description : Option (List Nat)
  year : Option Nat
  manufacturer_id : Option Nat
deriving DecidableEq, Repr

/-- A row of the `machine_roms` table as stored in SQLite. -/
structure DbMr where
  machine_id : Nat
  rom_id : Nat
  name_id : Option Nat
deriving DecidableEq, Repr

/-- The SQLite database read by `load_database`: tables in rowid order. -/
structure SqlDb where
  manufacturers : List (Nat × Str)
  rom_names : List (Nat × Str)
  roms : List DbRom
  machines : List DbMachine
  machine_roms : List DbMr
deriving DecidableEq, Repr

/-- A loaded ROM record (lines 122-129): `sha1` is non-NULL after the
`length(sha1) = 20` filter. -/
structure GRom where
  old_id : Nat
  sha1 : List Nat
  size_pow2 : Nat
  name_id : Option Nat
deriving DecidableEq, Repr

/-- A loaded machine record (lines 140-148): `year` has already collapsed
NULL (and the falsy 0) to 0. -/
structure GMachine where
  name : Str
  cloneof_id : Option Nat
  romof_id : Option Nat
  description : Option (List Nat)
  year : Nat
  manufacturer_id : Option Nat
deriving DecidableEq, Repr

/-- A loaded machine-ROM record. -/
structure GMr where
  machine_id : Nat
  rom_id : Nat
  name_id : Option Nat
deriving DecidableEq, Repr

/-- The dicts-and-lists bundle returned by `load_database`
(lines 172-178). -/
structure GData where
  manufacturers : List (Nat × Str)
  rom_names : List (Nat × Str)
  roms : List GRom
  machines : List (Nat × GMachine)
  machine_roms : List GMr
deriving DecidableEq, Repr

/-! ## Generator: `load_database` (lines 92-178) -/

/-- `ORDER BY size_pow2, sha1` of the ROM query (line 119): SQLite compares
the `size_pow2` integers, then the sha1 BLOBs by `memcmp`. -/
def RomLoadLe (a b : GRom) : Prop :=
  a.size_pow2 < b.size_pow2 ∨ (a.size_pow2 = b.size_pow2 ∧ ListNatLe a.sha1 b.sha1)

instance : DecidableRel RomLoadLe := fun a b => by
  unfold RomLoadLe; exact instDecidableOr

instance : IsTotal GRom RomLoadLe where
  total a b := by
    rcases Nat.lt_trichotomy a.size_pow2 b.size_pow2 with h | h | h
    · left; left; exact h
    · rcases lexLeB_total a.sha1 b.sha1 with hl | hl
      · left; right; exact ⟨h, hl⟩
      · right; right; exact ⟨h.symm, hl⟩
    · right; left; exact h

instance : IsTrans GRom RomLoadLe where
  trans a b c hab hbc := by
    rcases hab with h1 | ⟨h1, l1⟩
    · rcases hbc with h2 | ⟨h2, _⟩
      · left; exact Nat.lt_trans h1 h2
      · left; exact h2 ▸ h1
    · rcases hbc with h2 | ⟨h2, l2⟩
      · left; exact h1 ▸ h2
      · right; exact ⟨h1.trans h2, lexLeB_trans l1 l2⟩

/-- `ORDER BY rom_id, machine_id` of the `machine_roms` query
(line 157). -/
def DbMrLe (a b : DbMr) : Prop :=
  a.rom_id < b.rom_id ∨ (a.rom_id = b.rom_id ∧ a.machine_id ≤ b.machine_id)

instance : DecidableRel DbMrLe := fun a b => by
  unfold DbMrLe; exact instDecidableOr

instance : IsTotal DbMr DbMrLe where
  total a b := by
    rcases Nat.lt_trichotomy a.rom_id b.rom_id with h | h | h
    · left; left; exact h
    · rcases Nat.le_total a.machine_id b.machine_id with hm | hm
      · left; right; exact ⟨h, hm⟩
      · right; right; exact ⟨h.symm, hm⟩
    · right; left; exact h

instance : IsTrans DbMr DbMrLe where
  trans a b c hab hbc := by
    rcases hab with h1 | ⟨h1, l1⟩
    · rcases hbc with h2 | ⟨h2, _⟩
      · left; exact Nat.lt_trans h1 h2
      · left; exact h2 ▸ h1
    · rcases hbc with h2 | ⟨h2, l2⟩
      · left; exact h1 ▸ h2
      · right; exact ⟨h1.trans h2, Nat.le_trans l1 l2⟩

/-- The ROM `WHERE` clause (lines 117-118): size band and a non-NULL
20-byte sha1. -/
def romRowKept (minp maxp : Nat) (r : DbRom) : Bool :=
  minp ≤ r.size_pow2 && r.size_pow2 ≤ maxp &&
    (match r.sha1 with
     | none => false
     | some b => b.length == 20)

/-- The ROM query of `load_database` (lines 114-130): filter, project,
sort by `(size_pow2, sha1)`. -/
def loadRoms (db : SqlDb) (minp maxp : Nat) : List GRom :=
  List.insertionSort RomLoadLe
    ((db.roms.filter (romRowKept minp maxp)).map fun r =>
      ⟨r.id, r.sha1.getD [], r.size_pow2, r.name_id⟩)

/-- The year collapse of line 146: `row['year'] if row['year'] else 0`
(both NULL and the falsy literal 0 become 0). -/
def loadYear : Option Nat → Nat
  | none => 0
  | some v => if v == 0 then 0 else v

/-- The machine projection of lines 140-148. -/
def loadMachine (m : DbMachine) : GMachine :=
  ⟨m.name, m.cloneof_id, m.romof_id, m.description, loadYear m.year, m.manufacturer_id⟩

/-- `load_database` (lines 92-178): manufacturers and rom_names as dicts,
ROMs filtered and sorted, machines projected, machine_roms sorted by
`(rom_id, machine_id)` and filtered to the loaded ROM ids. -/
def load_database (db : SqlDb) (minp maxp : Nat) : GData :=
  let roms := loadRoms db minp maxp
  let romOldIds := roms.map (·.old_id)
  { manufacturers := db.manufacturers
    rom_names := db.rom_names
    roms := roms
    machines := db.machines.map (fun m => (m.id, loadMachine m))
    machine_roms :=
      ((List.insertionSort DbMrLe db.machine_roms).filter
        (fun mr => romOldIds.contains mr.rom_id)).map
        fun mr => ⟨mr.machine_id, mr.rom_id, mr.name_id⟩ }

end Gen

namespace Gen

/-! ## Generator: `remap_ids` (lines 185-316) -/

/-- `range(min_size_pow2, max_size_pow2 + 1)` (lines 204, 217). -/
def sizeRange (minp maxp : Nat) : List Nat := List.range' minp (maxp + 1 - minp)

/-- The `roms_by_size` grouping (lines 196-198): a `defaultdict` filled in
list order, so each class keeps the order of `data['roms']`. -/
def romsOfSize (roms : List GRom) (sp : Nat) : List GRom :=
  roms.filter (fun r => r.size_pow2 == sp)

/-- The `enumerate` loop of lines 210-214 on one size class, building the
`old_id → new_id` pairs; `make_rom_id` raises on an index above 16 bits. -/
def assignClass (sp : Nat) : Nat → List GRom → Except String (List (Nat × Nat))
  | _, [] => .ok []
  | idx, r :: rs =>
    match make_rom_id sp idx with
    | .error e => .error e
    | .ok nid =>
      match assignClass sp (idx + 1) rs with
      | .error e => .error e
      | .ok rest => .ok ((r.old_id, nid) :: rest)

/-- The outer loop over the size band (lines 204-214), concatenating the
per-class id assignments. -/
def assignAllClasses (roms : List GRom) : List Nat → Except String (List (Nat × Nat))
  | [] => .ok []
  | sp :: sps =>
    match assignClass sp 0 (romsOfSize roms sp) with
    | .error e => .error e
    | .ok l =>
      match assignAllClasses roms sps with
      | .error e => .error e
      | .ok rest => .ok (l ++ rest)

/-- The `size_index` table (lines 203-214): per class the running
`global_index` at its start and its count. -/
def sizeIndexGo (roms : List GRom) (acc : Nat) : List Nat → List (Nat × Nat × Nat)
  | [] => []
  | sp :: sps =>
    let cnt := (romsOfSize roms sp).length
    (sp, acc, cnt) :: sizeIndexGo roms (acc + cnt) sps

/-- `size_index` over the whole band. -/
def sizeIndexOf (roms : List GRom) (minp maxp : Nat) : List (Nat × Nat × Nat) :=
  sizeIndexGo roms 0 (sizeRange minp maxp)

/-- A remapped machine (dict value of `new_machines` plus the `old_id`
field added at line 240, after the in-place reference update of
lines 295-302). -/
structure RMachine where
  old_id : Nat
  name : Str
  cloneof_id : Nat
  romof_id : Nat
  description : Option (List Nat)
  year : Nat
  manufacturer_id : Nat
deriving DecidableEq, Repr

/-- A remapped ROM record (after the `name_id` update of lines 304-306). -/
structure RRom where
  old_id : Nat
  sha1 : List Nat
  size_pow2 : Nat
  name_id : Nat
deriving DecidableEq, Repr

/-- A remapped machine-ROM record. -/
structure RMr where
  machine_id : Nat
  rom_id : Nat
  name_id : Nat
deriving DecidableEq, Repr

/-- The result dict of `remap_ids` (lines 308-316); `machines`,
`manufacturers` and `rom_names` are positional (dict keys are
`0..count-1` in insertion order). -/
structure Remapped where
  roms : List RRom
  machines : List RMachine
  machine_roms : List RMr
  manufacturers : List Str
  rom_names : List Str
  size_index : List (Nat × Nat × Nat)
  rom_id_map : List (Nat × Nat)
deriving DecidableEq, Repr

/-- The sort key `(x['rom_id'], x['machine_id'])` of line 291. -/
def RMrLe (a b : RMr) : Prop :=
  a.rom_id < b.rom_id ∨ (a.rom_id = b.rom_id ∧ a.machine_id ≤ b.machine_id)

instance : DecidableRel RMrLe := fun a b => by
  unfold RMrLe; exact instDecidableOr

instance : IsTotal RMr RMrLe where
  total a b := by
    rcases Nat.lt_trichotomy a.rom_id b.rom_id with h | h | h
    · left; left; exact h
    · rcases Nat.le_total a.machine_id b.machine_id with hm | hm
      · left; right; exact ⟨h, hm⟩
      · right; right; exact ⟨h.symm, hm⟩
    · right; left; exact h

instance : IsTrans RMr RMrLe where
  trans a b c hab hbc := by
    rcases hab with h1 | ⟨h1, l1⟩
    · rcases hbc with h2 | ⟨h2, _⟩
      · left; exact Nat.lt_trans h1 h2
      · left; exact h2 ▸ h1
    · rcases hbc with h2 | ⟨h2, l2⟩
      · left; exact h1 ▸ h2
      · right; exact ⟨h1.trans h2, Nat.le_trans l1 l2⟩

/-- The reference remapping idiom
`id_map.get(old, null) if old else null` (lines 287, 300-302, 306):
Python truthiness sends both `None` and the falsy id 0 to the sentinel. -/
def remapRef (idMap : List (Nat × Nat)) (nullId : Nat) : Option Nat → Nat
  | none => nullId
  | some k => if k == 0 then nullId else (idMap.lookup k).getD nullId

/-- The string `"Unknown"` (line 256) as code points. -/
def unknownStr : Str := [85, 110, 107, 110, 111, 119, 110]

/-- `remap_ids` (lines 185-316). -/
def remap_ids (d : GData) (minp maxp : Nat) : Except String Remapped :=
  match assignAllClasses d.roms (sizeRange minp maxp) with
  | .error e => .error e
  | .ok romIdMap =>
    let sizeIdx := sizeIndexOf d.roms minp maxp
    let machinesWithRoms := d.machine_roms.map (·.machine_id)
    let sortedIds := List.insertionSort (· ≤ ·) (d.machines.map (·.1))
    let keptIds := sortedIds.filter (fun oid => machinesWithRoms.contains oid)
    let machineIdMap := keptIds.enum.map (fun p => (p.2, p.1))
    let keptMachines : List (Nat × GMachine) :=
      keptIds.map (fun oid => (oid, (d.machines.lookup oid).getD ⟨[], none, none, none, 0, none⟩))
    let usedManufs := keptMachines.filterMap (fun p => p.2.manufacturer_id)
    let sortedManufs := List.insertionSort (· ≤ ·) usedManufs.dedup
    let manufIdMap := sortedManufs.enum.map (fun p => (p.2, p.1))
    let newManufs := sortedManufs.map (fun oid => (d.manufacturers.lookup oid).getD unknownStr)
    let usedNames := d.roms.filterMap (·.name_id) ++ d.machine_roms.filterMap (·.name_id)
    let sortedNames := List.insertionSort (· ≤ ·) usedNames.dedup
    let nameIdMap := sortedNames.enum.map (fun p => (p.2, p.1))
    let newRomNames := sortedNames.map (fun oid => (d.rom_names.lookup oid).getD [])
    let nmrs := d.machine_roms.filterMap (fun mr =>
      match machineIdMap.lookup mr.machine_id, romIdMap.lookup mr.rom_id with
      | some mnew, some rnew =>
        some (RMr.mk mnew rnew (remapRef nameIdMap NULL_ID_24 mr.name_id))
      | _, _ => none)
    let sortedMrs := List.insertionSort RMrLe nmrs
    let newMachines := keptMachines.map (fun p =>
      RMachine.mk p.1 p.2.name (remapRef machineIdMap NULL_ID_24 p.2.cloneof_id)
        (remapRef machineIdMap NULL_ID_24 p.2.romof_id) p.2.description p.2.year
        (remapRef manufIdMap NULL_ID_16 p.2.manufacturer_id))
    let newRoms := d.roms.map (fun r =>
      RRom.mk r.old_id r.sha1 r.size_pow2 (remapRef nameIdMap NULL_ID_24 r.name_id))
    .ok ⟨newRoms, newMachines, sortedMrs, newManufs, newRomNames, sizeIdx, romIdMap⟩

end Gen

namespace Gen

/-! ## Generator: PoolBuilder (lines 323-375) -/

/-- UTF-8 encoding of one Unicode code point (Python `str.encode('utf-8')`,
one character). -/
def utf8EncodeChar (c : Nat) : List Nat :=
  if c < 0x80 then [c]
  else if c < 0x800 then
    [0xC0 ||| (c >>> 6), 0x80 ||| (c &&& 0x3F)]
  else if c < 0x10000 then
    [0xE0 ||| (c >>> 12), 0x80 ||| ((c >>> 6) &&& 0x3F), 0x80 ||| (c &&& 0x3F)]
  else
    [0xF0 ||| (c >>> 18), 0x80 ||| ((c >>> 12) &&& 0x3F),
      0x80 ||| ((c >>> 6) &&& 0x3F), 0x80 ||| (c &&& 0x3F)]

/-- `s.encode('utf-8')` (line 349). -/
def utf8Encode (s : Str) : List Nat := (s.map utf8EncodeChar).flatten

/-- The string collection of lines 327-337: manufacturer names, ROM
filenames and machine names; descriptions excluded. -/
def collectStrings (rd : Remapped) : List Str :=
  rd.manufacturers ++ rd.rom_names ++ rd.machines.map (·.name)

/-- `sorted(strings)` over the accumulated `set` (lines 327-341):
deduplicate, then sort by code points. -/
def sortedStrings (l : List Str) : List Str := List.insertionSort ListNatLe l.dedup

/-- The pool layout loop of lines 344-350: each string's UTF-8 bytes
followed by a single NUL. -/
def poolBytes : List Str → List Nat
  | [] => []
  | s :: rest => utf8Encode s ++ 0 :: poolBytes rest

/-- The `offset_map` built by the same loop: each string is mapped to the
pool length at the moment it is appended. -/
def offsetsFrom (base : Nat) : List Str → List (Str × Nat)
  | [] => []
  | s :: rest => (s, base) :: offsetsFrom (base + (utf8Encode s).length + 1) rest

/-- `build_strings_pool` parametrized by the order in which Python's
`set` iteration hands the collected strings to `sorted` (the result does
not depend on it; see the determinism theorem). -/
def stringsPoolFrom (l : List Str) : List Nat × List (Str × Nat) :=
  (poolBytes (sortedStrings l), offsetsFrom 0 (sortedStrings l))

/-- `build_strings_pool` (lines 323-354). -/
def build_strings_pool (rd : Remapped) : List Nat × List (Str × Nat) :=
  stringsPoolFrom (collectStrings rd)

/-- `sorted(data['machines'].items())` sorts by the pair, but the keys
(the new machine ids) are unique, so only the key ordering matters. -/
def KeyLe {β : Type} (a b : Nat × β) : Prop := a.1 ≤ b.1

instance {β : Type} : DecidableRel (KeyLe (β := β)) := fun a b => by
  unfold KeyLe; infer_instance

instance {β : Type} : IsTotal (Nat × β) KeyLe where
  total a b := Nat.le_total a.1 b.1

instance {β : Type} : IsTrans (Nat × β) KeyLe where
  trans _ _ _ h1 h2 := Nat.le_trans h1 h2

/-- The concatenation loop of `build_descriptions_pool` (lines 361-371):
machines with a falsy (absent or empty) description get `(0, 0)`; others
append their compressed payload and record `(offset, length)`. -/
def descPoolGo (base : Nat) : List (Nat × RMachine) → List Nat × List (Nat × Nat × Nat)
  | [] => ([], [])
  | (nid, m) :: rest =>
    let d := m.description.getD []
    if d.isEmpty then
      let (p, inf) := descPoolGo base rest
      (p, (nid, 0, 0) :: inf)
    else
      let (p, inf) := descPoolGo (base + d.length) rest
      (d ++ p, (nid, base, d.length) :: inf)

/-- `build_descriptions_pool` parametrized by the order in which the
machines dict enumerates its items before `sorted` (line 364). -/
def descPoolFromItems (items : List (Nat × RMachine)) : List Nat × List (Nat × Nat × Nat) :=
  descPoolGo 0 (List.insertionSort KeyLe items)

/-- `build_descriptions_pool` (lines 357-375): the machines dict has keys
`0..n-1` in insertion order, so its item list is the enumeration. -/
def build_descriptions_pool (machines : List RMachine) : List Nat × List (Nat × Nat × Nat) :=
  descPoolFromItems machines.enum

/-! ## Generator: BlobWriter (`generate_binary`, lines 378-513) -/

/-- `struct.pack('<H', v)` for an in-range value. -/
def le16 (v : Nat) : List Nat := [v % 256, v / 256 % 256]

/-- `struct.pack('<I', v)` for an in-range value. -/
def le32 (v : Nat) : List Nat := [v % 256, v / 256 % 256, v / 65536 % 256, v / 16777216 % 256]

/-- `write_uint24` (lines 61-63): the first three bytes of
`struct.pack('<I', v)`. -/
def write_uint24 (v : Nat) : List Nat := [v % 256, v / 256 % 256, v / 65536 % 256]

/-- One ROM table entry (lines 470-473): 20 sha1 bytes (a falsy sha1
becomes 20 zero bytes) plus the 24-bit name id. -/
def romEntryBytes (r : RRom) : List Nat :=
  (if r.sha1.isEmpty then List.replicate 20 0 else r.sha1) ++ write_uint24 r.name_id

/-- One machine table entry (lines 476-487). -/
def machineEntryBytes (m : RMachine) (nameOff dOff dLen : Nat) : List Nat :=
  le32 nameOff ++ le32 dOff ++ le16 dLen ++ write_uint24 m.cloneof_id ++
    write_uint24 m.romof_id ++ le16 (m.year &&& 0xFFFF) ++ le16 (m.manufacturer_id &&& 0xFFFF)

/-- One machine-ROM table entry (lines 490-493). -/
def mrEntryBytes (mr : RMr) : List Nat :=
  write_uint24 mr.machine_id ++ write_uint24 mr.rom_id ++ write_uint24 mr.name_id

/-- `MAGIC` (line 48): ASCII `MRDB`. -/
def MAGIC_BYTES : List Nat := [77, 82, 68, 66]

/-- `generate_binary` (lines 378-513): header, size index, ROM table,
machine table, machine-ROM table, manufacturer and ROM-name offset tables,
strings pool, descriptions pool. -/
def generate_binary (rd : Remapped) (spool : List Nat) (soffs : List (Str × Nat))
    (dpool : List Nat) (dinfo : List (Nat × Nat × Nat)) (minp maxp : Nat) : List Nat :=
  let numSizes := maxp + 1 - minp
  let sizeIndexSize := numSizes * 8
  let romsCount := rd.roms.length
  let machinesCount := rd.machines.length
  let mrCount := rd.machine_roms.length
  let manufCount := rd.manufacturers.length
  let romNamesCount := rd.rom_names.length
  let size_index_offset := HEADER_SIZE
  let roms_offset := size_index_offset + sizeIndexSize
  let machines_offset := roms_offset + romsCount * 23
  let machine_roms_offset := machines_offset + machinesCount * 20
  let manufacturers_offset := machine_roms_offset + mrCount * 9
  let rom_names_offset := manufacturers_offset + manufCount * 4
  let strings_offset := rom_names_offset + romNamesCount * 4
  let desc_offset := strings_offset + spool.length
  let header := MAGIC_BYTES ++ le16 1 ++ [minp % 256, maxp % 256] ++
    le32 romsCount ++ le32 machinesCount ++ le32 mrCount ++ le32 manufCount ++
    le32 romNamesCount ++ le32 size_index_offset ++ le32 roms_offset ++
    le32 machines_offset ++ le32 machine_roms_offset ++ le32 manufacturers_offset ++
    le32 rom_names_offset ++ le32 strings_offset ++ le32 desc_offset
  let headerPadded := header ++ List.replicate (HEADER_SIZE - header.length) 0
  let sizeIndexBytes := rd.size_index.flatMap fun t =>
    le32 (t.2.1 * 23) ++ le32 ((t.2.1 + t.2.2) * 23)
  let romBytes := rd.roms.flatMap romEntryBytes
  let machineBytes := rd.machines.enum.flatMap fun p =>
    let di := ((dinfo.find? (fun t => t.1 == p.1)).map (fun t => t.2)).getD (0, 0)
    machineEntryBytes p.2 ((soffs.lookup p.2.name).getD 0) di.1 di.2
  let mrBytes := rd.machine_roms.flatMap mrEntryBytes
  let manufBytes := rd.manufacturers.flatMap fun nm => le32 ((soffs.lookup nm).getD 0)
  let romNameBytes := rd.rom_names.flatMap fun nm => le32 ((soffs.lookup nm).getD 0)
  headerPadded ++ sizeIndexBytes ++ romBytes ++ machineBytes ++ mrBytes ++
    manufBytes ++ romNameBytes ++ spool ++ dpool

/-- The Remapper-to-BlobWriter tail of `main` (lines 1178-1196): on a
remap error no blob bytes exist at all. -/
def generateFromData (d : GData) (minp maxp : Nat) : Except String (List Nat) :=
  match remap_ids d minp maxp with
  | .error e => .error e
  | .ok rd =>
    let sp := build_strings_pool rd
    let dp := build_descriptions_pool rd.machines
    .ok (generate_binary rd sp.1 sp.2 dp.1 dp.2 minp maxp)

end Gen

namespace Gen

/-! ## Claims about the Remapper and BlobWriter -/

/-- Extraction of the sorted machine-ROM table from a successful remap. -/
theorem remap_ok_machine_roms (d : GData) (minp maxp : Nat) (rd : Remapped)
    (h : remap_ids d minp maxp = .ok rd) :
    List.Sorted RMrLe rd.machine_roms := by
  unfold remap_ids at h
  cases ha : assignAllClasses d.roms (sizeRange minp maxp) with
  | error e => rw [ha] at h; exact absurd h (by simp)
  | ok m =>
    rw [ha] at h
    simp only [Except.ok.injEq] at h
    subst h
    exact List.sorted_insertionSort RMrLe _

/-- C5: in the emitted blob the MachineRoms table (written in the order of
`data['machine_roms']`, lines 489-493) is ascending by `(rom_id,
machine_id)`: consecutive entries `a`, `b` satisfy `a.rom_id < b.rom_id`,
or `a.rom_id = b.rom_id` and `a.machine_id ≤ b.machine_id` (the sort of
line 291). -/
theorem c5_machine_roms_sorted (d : GData) (minp maxp : Nat) (rd : Remapped)
    (h : remap_ids d minp maxp = .ok rd) :
    List.Chain'
      (fun a b => a.rom_id < b.rom_id ∨ (a.rom_id = b.rom_id ∧ a.machine_id ≤ b.machine_id))
      rd.machine_roms :=
  ((remap_ok_machine_roms d minp maxp rd h).chain').imp (fun _ _ hab => hab)

/-- A one-machine, two-ROM catalogue on which the remap succeeds. -/
def wData : GData :=
  { manufacturers := [(1, [65])]
    rom_names := [(1, [97]), (2, [98])]
    roms := [⟨1, List.replicate 20 5, 11, some 1⟩, ⟨2, List.replicate 20 3, 11, some 2⟩]
    machines := [(1, ⟨[109], none, none, none, 1980, some 1⟩)]
    machine_roms := [⟨1, 1, some 1⟩, ⟨1, 2, some 2⟩] }

/-- Witness for C5 at a concrete catalogue. -/
theorem c5_machine_roms_sorted_witness :
    (remap_ids wData 11 12).isOk = true ∧
      List.Chain'
        (fun a b => a.rom_id < b.rom_id ∨ (a.rom_id = b.rom_id ∧ a.machine_id ≤ b.machine_id))
        ((remap_ids wData 11 12).toOption.getD ⟨[], [], [], [], [], [], []⟩).machine_roms := by
  have hok : (remap_ids wData 11 12).isOk = true := by decide
  refine ⟨hok, ?_⟩
  cases hw : remap_ids wData 11 12 with
  | error e => rw [hw] at hok; cases hok
  | ok rd =>
    simpa [Except.toOption] using c5_machine_roms_sorted wData 11 12 rd hw

/-- C10: a machine whose `year` is NULL in the catalogue is loaded with
year 0 (line 146) and its 2-byte year field (bytes 16-17 of the machine
entry, lines 476-487) is written as `[0, 0]`; the loaded record is
identical to that of a machine whose year is literally 0, so a consumer
cannot distinguish the two. -/
theorem c10_year_zero_collapse (dbm : DbMachine) (nameOff dOff dLen : Nat) (rm : RMachine)
    (hy : dbm.year = none) (hrm : rm.year = loadYear dbm.year) :
    ((machineEntryBytes rm nameOff dOff dLen).drop 16).take 2 = [0, 0] ∧
      loadMachine dbm = loadMachine { dbm with year := some 0 } := by
  have h0 : rm.year = 0 := by rw [hrm, hy]; rfl
  constructor
  · simp [machineEntryBytes, le32, le16, write_uint24, h0]
  · simp [loadMachine, loadYear, hy]

/-- Witness for C10 at a concrete machine row. -/
theorem c10_year_zero_collapse_witness :
    ((machineEntryBytes ⟨0, [], 0, 0, none, 0, 0⟩ 0 0 0).drop 16).take 2 = [0, 0] ∧
      loadMachine ⟨0, [], none, none, none, none, none⟩ =
        loadMachine { (⟨0, [], none, none, none, none, none⟩ : DbMachine) with year := some 0 } :=
  c10_year_zero_collapse ⟨0, [], none, none, none, none, none⟩ 0 0 0 ⟨0, [], 0, 0, none, 0, 0⟩
    rfl rfl

end Gen

namespace Gen

/-- `assignClass` succeeds exactly when the class fits the 16-bit index
space from its starting index. -/
theorem assignClass_ok_iff (sp k : Nat) (C : List GRom) :
    (∃ l, assignClass sp k C = .ok l) ↔ (C = [] ∨ k + C.length ≤ 65536) := by
  induction C generalizing k with
  | nil => simp [assignClass]
  | cons r rs ih =>
    by_cases hk : k > 0xFFFF
    · simp only [assignClass, make_rom_id, if_pos hk]
      constructor
      · rintro ⟨l, hl⟩; cases hl
      · rintro (h | h)
        · cases h
        · simp only [List.length_cons] at h; omega
    · simp only [assignClass, make_rom_id, if_neg hk]
      cases ha : assignClass sp (k + 1) rs with
      | error e =>
        have hr : ¬ (rs = [] ∨ k + 1 + rs.length ≤ 65536) := by
          intro hcon
          rcases (ih (k + 1)).mpr hcon with ⟨l, hl⟩
          rw [ha] at hl; cases hl
        constructor
        · rintro ⟨l, hl⟩; cases hl
        · rintro (h | h)
          · cases h
          · exfalso; apply hr
            cases rs with
            | nil => left; rfl
            | cons a as => right; simp only [List.length_cons] at h ⊢; omega
      | ok rest =>
        have hr : rs = [] ∨ k + 1 + rs.length ≤ 65536 :=
          (ih (k + 1)).mp ⟨rest, ha⟩
        constructor
        · intro _
          right
          simp only [List.length_cons]
          rcases hr with h | h
          · subst h; simp only [List.length_nil]; omega
          · omega
        · intro _; exact ⟨_, rfl⟩

/-- `assignAllClasses` succeeds exactly when every class in the band fits
16 bits. -/
theorem assignAllClasses_ok_iff (roms : List GRom) (sps : List Nat) :
    (∃ l, assignAllClasses roms sps = .ok l) ↔
      ∀ sp ∈ sps, (romsOfSize roms sp).length ≤ 65536 := by
  induction sps with
  | nil => simp [assignAllClasses]
  | cons s ss ih =>
    constructor
    · rintro ⟨l, hl⟩
      unfold assignAllClasses at hl
      cases h1 : assignClass s 0 (romsOfSize roms s) with
      | error e => rw [h1] at hl; cases hl
      | ok cl =>
        rw [h1] at hl
        cases h2 : assignAllClasses roms ss with
        | error e => rw [h2] at hl; cases hl
        | ok rest =>
          intro sp hsp
          rcases List.mem_cons.mp hsp with rfl | hsp'
          · rcases (assignClass_ok_iff sp 0 (romsOfSize roms sp)).mp ⟨cl, h1⟩ with h | h
            · simp [h]
            · omega
          · exact (ih.mp ⟨rest, h2⟩) sp hsp'
    · intro hall
      have h1 : ∃ cl, assignClass s 0 (romsOfSize roms s) = .ok cl := by
        apply (assignClass_ok_iff s 0 (romsOfSize roms s)).mpr
        right
        simpa using hall s (List.mem_cons_self s ss)
      have h2 : ∃ rest, assignAllClasses roms ss = .ok rest :=
        ih.mpr (fun sp hsp => hall sp (List.mem_cons_of_mem s hsp))
      rcases h1 with ⟨cl, h1⟩
      rcases h2 with ⟨rest, h2⟩
      exact ⟨cl ++ rest, by simp [assignAllClasses, h1, h2]⟩

/-- Every position of a successfully assigned class receives
`(sp <<< 16) ||| index`. -/
theorem assignClass_ok_mem (sp : Nat) :
    ∀ (k : Nat) (C : List GRom) (l : List (Nat × Nat)),
      assignClass sp k C = .ok l → ∀ (i : Nat) (hi : i < C.length),
      ((C.get ⟨i, hi⟩).old_id, (sp <<< 16) ||| (k + i)) ∈ l := by
  intro k C
  induction C generalizing k with
  | nil => intro l _ i hi; cases hi
  | cons r rs ih =>
    intro l h i hi
    by_cases hk : k > 0xFFFF
    · simp only [assignClass, make_rom_id, if_pos hk] at h; cases h
    · simp only [assignClass, make_rom_id, if_neg hk] at h
      cases ha : assignClass sp (k + 1) rs with
      | error e => rw [ha] at h; cases h
      | ok rest =>
        rw [ha] at h
        simp only [Except.ok.injEq] at h
        subst h
        cases i with
        | zero => simp
        | succ j =>
          have hj : j < rs.length := by simpa using hi
          have := ih (k + 1) rest ha j hj
          simp only [List.get_cons_succ]
          refine List.mem_cons_of_mem _ ?_
          have harith : k + 1 + j = k + (j + 1) := by omega
          rwa [harith] at this

/-- Every position of every class of a successful full assignment receives
its packed id. -/
theorem assignAllClasses_mem (roms : List GRom) :
    ∀ (sps : List Nat) (l : List (Nat × Nat)),
      assignAllClasses roms sps = .ok l → ∀ sp ∈ sps,
      ∀ (i : Nat) (hi : i < (romsOfSize roms sp).length),
      (((romsOfSize roms sp).get ⟨i, hi⟩).old_id, (sp <<< 16) ||| i) ∈ l := by
  intro sps
  induction sps with
  | nil => intro l _ sp hsp; cases hsp
  | cons s ss ih =>
    intro l h sp hsp i hi
    unfold assignAllClasses at h
    cases h1 : assignClass s 0 (romsOfSize roms s) with
    | error e => rw [h1] at h; cases h
    | ok cl =>
      rw [h1] at h
      cases h2 : assignAllClasses roms ss with
      | error e => rw [h2] at h; cases h
      | ok rest =>
        rw [h2] at h
        simp only [Except.ok.injEq] at h
        subst h
        rcases List.mem_cons.mp hsp with rfl | hsp'
        · refine List.mem_append_left _ ?_
          simpa using assignClass_ok_mem sp 0 (romsOfSize roms sp) cl h1 i hi
        · exact List.mem_append_right _ (ih rest h2 sp hsp' i hi)

/-- Extraction of the rom id map from a successful remap. -/
theorem remap_ok_rom_id_map (d : GData) (minp maxp : Nat) (rd : Remapped)
    (h : remap_ids d minp maxp = .ok rd) :
    assignAllClasses d.roms (sizeRange minp maxp) = .ok rd.rom_id_map := by
  unfold remap_ids at h
  cases ha : assignAllClasses d.roms (sizeRange minp maxp) with
  | error e => rw [ha] at h; cases h
  | ok m =>
    rw [ha] at h
    simp only [Except.ok.injEq] at h
    subst h
    rfl

/-- The whole generation pipeline fails exactly when the Remapper fails. -/
theorem generateFromData_error_iff (d : GData) (minp maxp : Nat) :
    (∃ e, generateFromData d minp maxp = .error e) ↔
      (∃ e, remap_ids d minp maxp = .error e) := by
  unfold generateFromData
  cases h : remap_ids d minp maxp <;> simp

/-- C4: the Remapper (and hence the whole blob generation) fails if and
only if some size class within the band holds more than `2 ^ 16` ROMs
(some 0-based index would exceed `0xFFFF`); on success every ROM of every
class receives the 24-bit id `(size_pow2 <<< 16) ||| index`, `index` being
its 0-based position within its class. -/
theorem c4_remap_class_overflow (d : GData) (minp maxp : Nat) :
    ((∃ e, generateFromData d minp maxp = .error e) ↔
      ∃ sp ∈ sizeRange minp maxp, 2 ^ 16 < (romsOfSize d.roms sp).length) ∧
    ∀ rd, remap_ids d minp maxp = .ok rd →
      ∀ sp ∈ sizeRange minp maxp, ∀ (i : Nat) (hi : i < (romsOfSize d.roms sp).length),
        (((romsOfSize d.roms sp).get ⟨i, hi⟩).old_id, (sp <<< 16) ||| i) ∈ rd.rom_id_map := by
  constructor
  · rw [generateFromData_error_iff]
    have hiff := assignAllClasses_ok_iff d.roms (sizeRange minp maxp)
    constructor
    · rintro ⟨e, he⟩
      by_contra hno
      push_neg at hno
      have : ∀ sp ∈ sizeRange minp maxp, (romsOfSize d.roms sp).length ≤ 65536 := by
        intro sp hsp
        have := hno sp hsp
        omega
      rcases hiff.mpr this with ⟨l, hl⟩
      unfold remap_ids at he
      rw [hl] at he
      cases he
    · rintro ⟨sp, hsp, hlen⟩
      cases he : remap_ids d minp maxp with
      | error e => exact ⟨e, rfl⟩
      | ok rd =>
        exfalso
        have := hiff.mp ⟨rd.rom_id_map, remap_ok_rom_id_map d minp maxp rd he⟩ sp hsp
        have h16 : (2 : Nat) ^ 16 = 65536 := by norm_num
        omega
  · intro rd hrd sp hsp i hi
    exact assignAllClasses_mem d.roms (sizeRange minp maxp) rd.rom_id_map
      (remap_ok_rom_id_map d minp maxp rd hrd) sp hsp i hi

/-- Witness for C4: on the concrete catalogue the pipeline succeeds and
the first ROM of class 11 receives id `(11 <<< 16) ||| 0`. -/
theorem c4_remap_class_overflow_witness :
    (generateFromData wData 11 12).isOk = true ∧
      ((1 : Nat), (11 <<< 16) ||| 0) ∈
        ((remap_ids wData 11 12).toOption.getD ⟨[], [], [], [], [], [], []⟩).rom_id_map := by
  refine ⟨by decide, ?_⟩
  have hok : (remap_ids wData 11 12).isOk = true := by decide
  cases hw : remap_ids wData 11 12 with
  | error e => rw [hw] at hok; cases hok
  | ok rd =>
    have := (c4_remap_class_overflow wData 11 12).2 rd hw 11 (by decide) 0 (by decide)
    simpa [Except.toOption, wData, romsOfSize] using this

end Gen

namespace Gen

/-- On rows with a present sha1, projecting with a default equals
`filterMap`. -/
theorem map_sha1_eq_filterMap :
    ∀ (l : List DbRom), (∀ r ∈ l, r.sha1.isSome) →
      l.map (fun r => r.sha1.getD []) = l.filterMap (·.sha1)
  | [], _ => rfl
  | r :: rs, h => by
    cases hs : r.sha1 with
    | none => exact absurd (hs ▸ h r (List.mem_cons_self r rs)) (by simp)
    | some b =>
      simp only [List.map_cons, List.filterMap_cons, hs, Option.getD_some]
      rw [map_sha1_eq_filterMap rs (fun x hx => h x (List.mem_cons_of_mem r hx))]

/-- Rows surviving the load filter carry a sha1. -/
theorem romRowKept_sha1_isSome {minp maxp : Nat} {r : DbRom}
    (h : romRowKept minp maxp r = true) : r.sha1.isSome := by
  unfold romRowKept at h
  cases hs : r.sha1 with
  | none => rw [hs] at h; simp at h
  | some b => rfl

/-- If the catalogue's sha1 blobs are pairwise distinct, so are the sha1s
of the loaded ROM list. -/
theorem loaded_sha1_nodup (db : SqlDb) (minp maxp : Nat)
    (hsha : (db.roms.filterMap (·.sha1)).Nodup) :
    ((loadRoms db minp maxp).map (·.sha1)).Nodup := by
  have hperm : List.Perm (loadRoms db minp maxp)
      ((db.roms.filter (romRowKept minp maxp)).map
        (fun r => GRom.mk r.id (r.sha1.getD []) r.size_pow2 r.name_id)) :=
    List.perm_insertionSort _ _
  have hmap := hperm.map (fun g : GRom => g.sha1)
  rw [List.map_map] at hmap
  have hsome : ∀ r ∈ db.roms.filter (romRowKept minp maxp), r.sha1.isSome := fun r hr =>
    romRowKept_sha1_isSome (List.mem_filter.mp hr).2
  have heq : (db.roms.filter (romRowKept minp maxp)).map
      ((fun g : GRom => g.sha1) ∘ fun r => GRom.mk r.id (r.sha1.getD []) r.size_pow2 r.name_id) =
      (db.roms.filter (romRowKept minp maxp)).filterMap (·.sha1) :=
    map_sha1_eq_filterMap _ hsome
  rw [heq] at hmap
  have hsub : List.Sublist ((db.roms.filter (romRowKept minp maxp)).filterMap (·.sha1))
      (db.roms.filterMap (·.sha1)) :=
    (List.filter_sublist db.roms).filterMap (·.sha1)
  exact hmap.nodup_iff.mpr (hsub.nodup hsha)

/-- C6: within each size class the ROM table of the blob is strictly
ascending by the 20-byte sha1 compared byte-lexicographically
(`ORDER BY size_pow2, sha1`, line 119), and on a successful remap every
ROM receives `(size_pow2 <<< 16) ||| index`, `index` being its 0-based
position within its class under that ordering.  The hypothesis is the
catalogue invariant that ROMs are deduplicated by SHA-1. -/
theorem c6_class_sorted_ids (db : SqlDb) (minp maxp : Nat)
    (hsha : (db.roms.filterMap (·.sha1)).Nodup) :
    (∀ sp, List.Pairwise (fun a b => ListNatLt a.sha1 b.sha1)
        (romsOfSize (load_database db minp maxp).roms sp)) ∧
    ∀ rd, remap_ids (load_database db minp maxp) minp maxp = .ok rd →
      ∀ sp ∈ sizeRange minp maxp,
      ∀ (i : Nat) (hi : i < (romsOfSize (load_database db minp maxp).roms sp).length),
        (((romsOfSize (load_database db minp maxp).roms sp).get ⟨i, hi⟩).old_id,
          (sp <<< 16) ||| i) ∈ rd.rom_id_map := by
  have hrome : (load_database db minp maxp).roms = loadRoms db minp maxp := rfl
  constructor
  · intro sp
    have hsorted : List.Sorted RomLoadLe (loadRoms db minp maxp) :=
      List.sorted_insertionSort _ _
    have hC : List.Pairwise RomLoadLe (romsOfSize (loadRoms db minp maxp) sp) :=
      List.Pairwise.sublist (List.filter_sublist _) hsorted
    have hsub : List.Sublist
        ((romsOfSize (loadRoms db minp maxp) sp).map (fun g : GRom => g.sha1))
        ((loadRoms db minp maxp).map (fun g : GRom => g.sha1)) :=
      List.Sublist.map _ (List.filter_sublist _)
    have hndC : ((romsOfSize (loadRoms db minp maxp) sp).map (fun g : GRom => g.sha1)).Nodup :=
      List.Nodup.sublist hsub (loaded_sha1_nodup db minp maxp hsha)
    have hne : List.Pairwise (fun a b : GRom => a.sha1 ≠ b.sha1)
        (romsOfSize (loadRoms db minp maxp) sp) := by
      rw [List.Nodup, List.pairwise_map] at hndC
      exact hndC
    rw [hrome]
    refine (hC.and hne).imp_of_mem ?_
    intro a b ha hb hab
    have hsa : a.size_pow2 = sp := by
      have := (List.mem_filter.mp ha).2
      simpa using this
    have hsb : b.size_pow2 = sp := by
      have := (List.mem_filter.mp hb).2
      simpa using this
    rcases hab.1 with hlt | ⟨_, hle⟩
    · rw [hsa, hsb] at hlt; exact absurd hlt (lt_irrefl sp)
    · exact ⟨hle, hab.2⟩
  · intro rd hrd sp hsp i hi
    exact assignAllClasses_mem _ (sizeRange minp maxp) rd.rom_id_map
      (remap_ok_rom_id_map _ minp maxp rd hrd) sp hsp i hi

/-- A two-ROM SQLite catalogue for the C6 witness. -/
def wDb : SqlDb :=
  { manufacturers := [(1, [65])]
    rom_names := [(1, [97]), (2, [98])]
    roms := [⟨1, some (List.replicate 20 5), 11, some 1⟩,
             ⟨2, some (List.replicate 20 3), 11, some 2⟩]
    machines := [⟨1, [109], none, none, none, some 1980, some 1⟩]
    machine_roms := [⟨1, 1, some 1⟩, ⟨1, 2, some 2⟩] }

/-- Witness for C6: the loaded class 11 is strictly ascending by sha1 and
its head (the ROM with the smaller sha1, old id 2) receives
`(11 <<< 16) ||| 0`. -/
theorem c6_class_sorted_ids_witness :
    List.Pairwise (fun a b => ListNatLt a.sha1 b.sha1)
        (romsOfSize (load_database wDb 11 12).roms 11) ∧
      ((2 : Nat), (11 <<< 16) ||| 0) ∈
        ((remap_ids (load_database wDb 11 12) 11 12).toOption.getD
          ⟨[], [], [], [], [], [], []⟩).rom_id_map := by
  obtain ⟨h1, h2⟩ := c6_class_sorted_ids wDb 11 12 (by decide)
  refine ⟨h1 11, ?_⟩
  have hok : (remap_ids (load_database wDb 11 12) 11 12).isOk = true := by decide
  cases hw : remap_ids (load_database wDb 11 12) 11 12 with
  | error e => rw [hw] at hok; cases hok
  | ok rd =>
    have hlen : 0 < (romsOfSize (load_database wDb 11 12).roms 11).length := by decide
    have := h2 rd hw 11 (by decide) 0 hlen
    have hold : ((romsOfSize (load_database wDb 11 12).roms 11).get ⟨0, hlen⟩).old_id = 2 := rfl
    rw [hold] at this
    simpa [Except.toOption] using this

end Gen

namespace Gen

/-- `sorted(set(...))`: the layout order has no duplicates. -/
theorem sortedStrings_nodup (l : List Str) : (sortedStrings l).Nodup :=
  ((List.perm_insertionSort ListNatLe l.dedup).nodup_iff).mpr l.nodup_dedup

/-- `sorted(set(...))`: the layout order is sorted. -/
theorem sortedStrings_sorted (l : List Str) : List.Sorted ListNatLe (sortedStrings l) :=
  List.sorted_insertionSort _ _

/-- `sorted(set(...))`: the layout order holds exactly the collected
strings. -/
theorem mem_sortedStrings (l : List Str) (s : Str) : s ∈ sortedStrings l ↔ s ∈ l := by
  unfold sortedStrings
  rw [(List.perm_insertionSort ListNatLe l.dedup).mem_iff, List.mem_dedup]

/-- The layout loop: every laid-out string's recorded offset points at its
UTF-8 bytes followed by the NUL terminator. -/
theorem layout_lookup :
    ∀ (strs : List Str) (base : Nat) (s : Str), s ∈ strs → strs.Nodup →
      ∃ off, (offsetsFrom base strs).lookup s = some off ∧ base ≤ off ∧
        ((poolBytes strs).drop (off - base)).take ((utf8Encode s).length + 1) =
          utf8Encode s ++ [0] := by
  intro strs
  induction strs with
  | nil => intro base s hs; cases hs
  | cons x rest ih =>
    intro base s hs hnd
    rcases List.mem_cons.mp hs with rfl | hs'
    · refine ⟨base, ?_, Nat.le_refl base, ?_⟩
      · simp [offsetsFrom, List.lookup]
      · have hre : utf8Encode s ++ 0 :: poolBytes rest =
            (utf8Encode s ++ [0]) ++ poolBytes rest := by simp
        simp only [poolBytes, Nat.sub_self, List.drop_zero, hre]
        rw [List.take_left' (by simp)]
    · have hne : s ≠ x := by
        intro hcon
        subst hcon
        exact (List.nodup_cons.mp hnd).1 hs'
      rcases ih (base + (utf8Encode x).length + 1) s hs' (List.nodup_cons.mp hnd).2 with
        ⟨off, hlook, hle, hdrop⟩
      refine ⟨off, ?_, by omega, ?_⟩
      · have hbeq : (s == x) = false := beq_eq_false_iff_ne.mpr hne
        simp only [offsetsFrom, List.lookup, hbeq]
        exact hlook
      · have hre : utf8Encode x ++ 0 :: poolBytes rest =
            (utf8Encode x ++ [0]) ++ poolBytes rest := by simp
        have harith : off - base = ((utf8Encode x) ++ [0]).length + (off - (base + (utf8Encode x).length + 1)) := by
          simp only [List.length_append, List.length_cons, List.length_nil]
          omega
        simp only [poolBytes, hre, harith, List.drop_append]
        exact hdrop

/-- In a sorted layout that contains the empty string, the empty string
comes first. -/
theorem sorted_nil_head (l : List Str) (hs : List.Sorted ListNatLe l) (hm : [] ∈ l) :
    ∃ rest, l = [] :: rest := by
  cases l with
  | nil => cases hm
  | cons x rest =>
    rcases List.mem_cons.mp hm with he | hm'
    · exact ⟨rest, by rw [← he]⟩
    · have hx : ListNatLe x [] := (List.pairwise_cons.mp hs).1 [] hm'
      exact ⟨rest, by rw [listNatLe_nil_right hx]⟩

/-- C9: the strings pool lays out exactly the referenced strings
(manufacturer names, ROM filenames, machine names; not descriptions),
deduplicated and sorted lexicographically, each as UTF-8 plus one NUL;
each recorded offset is the byte position of the string's first byte, and
the empty string (which sorts first) receives offset 0 and contributes the
single byte `[0]`. -/
theorem c9_strings_pool_layout (rd : Remapped) :
    ((sortedStrings (collectStrings rd)).Nodup ∧
      List.Sorted ListNatLe (sortedStrings (collectStrings rd)) ∧
      (∀ s, s ∈ sortedStrings (collectStrings rd) ↔ s ∈ collectStrings rd)) ∧
    (∀ s ∈ collectStrings rd, ∃ off, (build_strings_pool rd).2.lookup s = some off ∧
      ((build_strings_pool rd).1.drop off).take ((utf8Encode s).length + 1) =
        utf8Encode s ++ [0]) ∧
    ([] ∈ collectStrings rd →
      (build_strings_pool rd).2.lookup [] = some 0 ∧ utf8Encode [] ++ [0] = [0]) := by
  refine ⟨⟨sortedStrings_nodup _, sortedStrings_sorted _, mem_sortedStrings _⟩, ?_, ?_⟩
  · intro s hs
    rcases layout_lookup (sortedStrings (collectStrings rd)) 0 s
        ((mem_sortedStrings _ s).mpr hs) (sortedStrings_nodup _) with ⟨off, hlook, _, hdrop⟩
    refine ⟨off, hlook, ?_⟩
    simpa using hdrop
  · intro hm
    have hm' : [] ∈ sortedStrings (collectStrings rd) := (mem_sortedStrings _ _).mpr hm
    rcases sorted_nil_head _ (sortedStrings_sorted _) hm' with ⟨rest, hre⟩
    constructor
    · show (offsetsFrom 0 (sortedStrings (collectStrings rd))).lookup [] = some 0
      rw [hre]
      simp [offsetsFrom, List.lookup]
    · rfl

/-- A concrete remapped catalogue whose referenced strings include the
empty string. -/
def wRd : Remapped :=
  { roms := []
    machines := [⟨0, [97], NULL_ID_24, NULL_ID_24, none, 0, NULL_ID_16⟩]
    machine_roms := []
    manufacturers := [[98]]
    rom_names := [[]]
    size_index := []
    rom_id_map := [] }

/-- Witness for C9 at a concrete catalogue. -/
theorem c9_strings_pool_layout_witness :
    ((build_strings_pool wRd).2.lookup [] = some 0 ∧ utf8Encode [] ++ [0] = [0]) ∧
      (sortedStrings (collectStrings wRd)).Nodup := by
  obtain ⟨h1, _, h3⟩ := c9_strings_pool_layout wRd
  exact ⟨h3 (by decide), h1.1⟩

end Gen

namespace Gen

/-- The sorted-deduplicated layout order depends only on the membership of
the collected set, not on the order `set` iteration presents it. -/
theorem sortedStrings_eq_of_mem (l₁ l₂ : List Str) (h : ∀ s, s ∈ l₁ ↔ s ∈ l₂) :
    sortedStrings l₁ = sortedStrings l₂ := by
  have hperm : List.Perm l₁.dedup l₂.dedup :=
    (List.perm_ext_iff_of_nodup l₁.nodup_dedup l₂.nodup_dedup).mpr
      (fun a => by rw [List.mem_dedup, List.mem_dedup]; exact h a)
  have hperm2 : List.Perm (sortedStrings l₁) (sortedStrings l₂) :=
    ((List.perm_insertionSort _ _).trans hperm).trans (List.perm_insertionSort _ _).symm
  exact List.eq_of_perm_of_sorted hperm2 (sortedStrings_sorted l₁) (sortedStrings_sorted l₂)

/-- Two key-sorted association lists that are permutations of each other
with duplicate-free keys are equal. -/
theorem eq_of_perm_sorted_keys {β : Type} :
    ∀ {l₁ l₂ : List (Nat × β)}, List.Perm l₁ l₂ → List.Sorted KeyLe l₁ →
      List.Sorted KeyLe l₂ → (l₁.map Prod.fst).Nodup → l₁ = l₂ := by
  intro l₁
  induction l₁ with
  | nil =>
    intro l₂ hp _ _ _
    exact (hp.symm.eq_nil).symm
  | cons a t₁ ih =>
    intro l₂ hp hs₁ hs₂ hnd
    cases l₂ with
    | nil => exact absurd hp.eq_nil (by simp)
    | cons b t₂ =>
      have hab : a = b := by
        by_contra hne
        have hamem : a ∈ t₂ := by
          rcases List.mem_cons.mp (hp.mem_iff.mp (List.mem_cons_self a t₁)) with he | hm
          · exact absurd he hne
          · exact hm
        have hbmem : b ∈ t₁ := by
          rcases List.mem_cons.mp (hp.mem_iff.mpr (List.mem_cons_self b t₂)) with he | hm
          · exact absurd he.symm hne
          · exact hm
        have h1 : KeyLe a b := (List.pairwise_cons.mp hs₁).1 b hbmem
        have h2 : KeyLe b a := (List.pairwise_cons.mp hs₂).1 a hamem
        have hk : b.1 = a.1 := Nat.le_antisymm h2 h1
        have hmemk : b.1 ∈ t₁.map Prod.fst := List.mem_map_of_mem Prod.fst hbmem
        rw [hk] at hmemk
        simp only [List.map_cons, List.nodup_cons] at hnd
        exact hnd.1 hmemk
      subst hab
      have ht : List.Perm t₁ t₂ := hp.cons_inv
      simp only [List.map_cons, List.nodup_cons] at hnd
      rw [ih ht hs₁.of_cons hs₂.of_cons hnd.2]

/-- C7: determinism of the PoolBuilder.  Two runs over the same remapped
catalogue differ only in the order in which Python `set`/`dict` iteration
presents the collected strings (lines 327-341) and the machine items
(line 364); for any two such presentations the strings pools and the
descriptions pools are byte-identical. -/
theorem c7_pools_deterministic (l₁ l₂ : List Str) (hmem : ∀ s, s ∈ l₁ ↔ s ∈ l₂)
    (e₁ e₂ : List (Nat × RMachine)) (hperm : List.Perm e₁ e₂)
    (hkeys : (e₁.map Prod.fst).Nodup) :
    stringsPoolFrom l₁ = stringsPoolFrom l₂ ∧ descPoolFromItems e₁ = descPoolFromItems e₂ := by
  constructor
  · unfold stringsPoolFrom
    rw [sortedStrings_eq_of_mem l₁ l₂ hmem]
  · unfold descPoolFromItems
    have hsorteq : List.insertionSort KeyLe e₁ = List.insertionSort KeyLe e₂ := by
      apply eq_of_perm_sorted_keys
      · exact ((List.perm_insertionSort _ _).trans hperm).trans
          (List.perm_insertionSort _ _).symm
      · exact List.sorted_insertionSort _ _
      · exact List.sorted_insertionSort _ _
      · exact (((List.perm_insertionSort KeyLe e₁).map Prod.fst).nodup_iff).mpr hkeys
    rw [hsorteq]

/-- Witness for C7: two opposite presentation orders of the same strings
and machine items give identical pools. -/
theorem c7_pools_deterministic_witness :
    stringsPoolFrom [[98], [97]] = stringsPoolFrom [[97], [98]] ∧
      descPoolFromItems
          [(0, ⟨0, [97], 0, 0, some [1, 2], 0, 0⟩), (1, ⟨1, [98], 0, 0, none, 0, 0⟩)] =
        descPoolFromItems
          [(1, ⟨1, [98], 0, 0, none, 0, 0⟩), (0, ⟨0, [97], 0, 0, some [1, 2], 0, 0⟩)] :=
  c7_pools_deterministic [[98], [97]] [[97], [98]]
    (fun s => by simp only [List.mem_cons, List.not_mem_nil, or_false]; tauto)
    _ _ (by decide) (by decide)

end Gen

namespace Builder

/-! ## Claims about the Ingestor and the PostProcessor -/

/-- Erasing a ROM element whose `sha1` attribute is missing or empty does
not change the parsed ROM list: such a ROM is dropped by the filter. -/
theorem parseRoms_erase (r : RomElem) (hr : r.sha1 = none ∨ r.sha1 = some "") :
    ∀ (l : List RomElem), parseRoms (l.erase r) = parseRoms l := by
  intro l
  induction l with
  | nil => rfl
  | cons x xs ih =>
    by_cases hx : x = r
    · subst hx
      rw [List.erase_cons_head]
      rcases hr with h | h
      · cases hsz : x.size with
        | none => simp [parseRoms, hsz]
        | some sz => simp [parseRoms, hsz, h]
      · cases hsz : x.size with
        | none => simp [parseRoms, hsz]
        | some sz => simp [parseRoms, hsz, h, String.isEmpty]
    · have hne : ¬((x == r) = true) := by simpa using hx
      rw [List.erase_cons_tail hne]
      simp only [parseRoms, ih]

/-- C1 (amended): a `<rom>` whose `sha1` attribute is missing or empty is
dropped: processing the machine with that element erased gives exactly the
same result (same tables, and in particular the same abort behaviour), so
no `Rom` record and no `MachineRom` row arise from it and its presence
never aborts the build.  A present but non-40-hex `sha1` is *not*
validated: see the counterexample. -/
theorem c1_sha1_missing_drops_rom (c : IngestCtx) (e : MachineElem) (r : RomElem)
    (hr : r.sha1 = none ∨ r.sha1 = some "") :
    processMachineElem c { e with roms := e.roms.erase r } = processMachineElem c e := by
  obtain ⟨nm, cl, ro, de, ye, ma, rs⟩ := e
  unfold processMachineElem
  simp only [parseRoms_erase r hr]

/-- The machine element of the C1 counterexample: one ROM of valid size
256 whose `sha1` is the 4-character hex string `abcd`. -/
def c1Elem : MachineElem :=
  ⟨some "m", none, none, none, none, none, [⟨"a", some 256, none, some "abcd"⟩]⟩

/-- C1 counterexample: the claim says a ROM whose `sha1` is not exactly 40
hex characters is dropped with no `Rom` record created; processing the
machine above from the fresh build state creates a `Rom` record with the
2-byte sha1 `0xabcd`. -/
theorem c1_counterexample :
    is40Hex "abcd" = false ∧
      (processMachineElem initialCtx c1Elem).map (fun c => c.db.roms.map (·.sha1)) =
        .ok [[171, 205]] := by
  constructor
  · decide
  · rfl

/-- A machine element holding one sizeless-sha1 ROM for the C1 witness. -/
def c1wElem : MachineElem :=
  ⟨some "m", none, none, none, none, none,
    [⟨"a", some 256, none, none⟩, ⟨"b", some 256, none, some "aa"⟩]⟩

/-- Witness for C1 (amended) at a concrete machine element. -/
theorem c1_sha1_missing_drops_rom_witness :
    processMachineElem initialCtx
        { c1wElem with roms := c1wElem.roms.erase ⟨"a", some 256, none, none⟩ } =
      processMachineElem initialCtx c1wElem :=
  c1_sha1_missing_drops_rom initialCtx c1wElem ⟨"a", some 256, none, none⟩ (Or.inl rfl)

/-- C2 (amended): a ROM is classified as a shared BIOS ROM if and only if
the number of `machine_roms` *rows* referencing it (duplicates counted:
`COUNT(mr.machine_id)` of line 624 counts rows) strictly exceeds the
threshold. -/
theorem c2_bios_by_rowcount (st : DbState) (T : Nat) (r : RomRow) (hr : r ∈ st.roms) :
    r.id ∈ biosRomIds st T ↔
      T < st.machine_roms.countP (fun mr => mr.rom_id == r.id) := by
  unfold biosRomIds
  constructor
  · intro h
    rcases List.mem_map.mp h with ⟨r', hr', hid⟩
    have hp := (List.mem_filter.mp hr').2
    rw [← hid]
    exact of_decide_eq_true hp
  · intro h
    exact List.mem_map.mpr ⟨r, List.mem_filter.mpr ⟨hr, decide_eq_true h⟩, rfl⟩

/-- The spec-side count of claim C2: the number of *distinct* machines
referencing a ROM.  Used only to state the claim. -/
def distinctMachineCount (st : DbState) (rid : Nat) : Nat :=
  (((st.machine_roms.filter (fun mr => mr.rom_id == rid)).map (·.machine_id)).dedup).length

/-- The repeated row of the C2/C8 counterexamples. -/
def cxRow : MrRow := ⟨2, 1, 1⟩

/-- A database in which one machine references one ROM through 4001
duplicate `(machine, rom)` rows (duplicates are preserved by the model). -/
def cxSt : DbState :=
  ⟨[], [⟨1, "a"⟩], [⟨1, [170], none, 11, 1⟩], [⟨2, "m", none, none, none, none, none⟩],
    List.replicate 4001 cxRow⟩

/-- C2 counterexample: with the default threshold 4000, the ROM is
classified as a shared BIOS ROM although only one distinct machine
references it. -/
theorem c2_counterexample :
    (1 : Nat) ∈ biosRomIds cxSt NEOGEO_BIOS_THRESHOLD ∧
      distinctMachineCount cxSt 1 = 1 ∧ 1 ≤ NEOGEO_BIOS_THRESHOLD := by
  have hcount : cxSt.machine_roms.countP (fun mr => mr.rom_id == 1) = 4001 := by
    show (List.replicate 4001 cxRow).countP _ = 4001
    rw [List.countP_replicate]
    norm_num [cxRow]
  refine ⟨?_, ?_, by norm_num [NEOGEO_BIOS_THRESHOLD]⟩
  · unfold biosRomIds
    refine List.mem_map.mpr
      ⟨⟨1, [170], none, 11, 1⟩, List.mem_filter.mpr ⟨List.mem_cons_self _ _, ?_⟩, rfl⟩
    refine decide_eq_true ?_
    show NEOGEO_BIOS_THRESHOLD < cxSt.machine_roms.countP _
    rw [hcount]
    norm_num [NEOGEO_BIOS_THRESHOLD]
  · unfold distinctMachineCount
    have h1 : cxSt.machine_roms.filter (fun mr => mr.rom_id == 1) =
        List.replicate 4001 cxRow := by
      show (List.replicate 4001 cxRow).filter _ = _
      rw [List.filter_replicate]
      rfl
    rw [h1, List.map_replicate]
    rw [dedup_replicate 4001 _ (by norm_num)]
    rfl

/-- A one-row database for the C2 witness. -/
def c2wSt : DbState :=
  ⟨[], [⟨1, "a"⟩], [⟨1, [170], none, 11, 1⟩], [⟨5, "m", none, none, none, none, none⟩],
    [⟨5, 1, 1⟩]⟩

/-- Witness for C2 (amended) at a concrete database. -/
theorem c2_bios_by_rowcount_witness : (1 : Nat) ∈ biosRomIds c2wSt 0 :=
  (c2_bios_by_rowcount c2wSt 0 ⟨1, [170], none, 11, 1⟩ (by decide)).mpr (by decide)

end Builder

namespace Builder

/-- Every member of a list of naturals is bounded by its max-fold. -/
theorem mem_le_foldr_max : ∀ {l : List Nat} {x : Nat}, x ∈ l → x ≤ l.foldr max 0 := by
  intro l
  induction l with
  | nil => intro x hx; cases hx
  | cons a t ih =>
    intro x hx
    rcases List.mem_cons.mp hx with rfl | hx'
    · exact Nat.le_max_left x (t.foldr max 0)
    · exact Nat.le_trans (ih hx') (Nat.le_max_right a (t.foldr max 0))

/-- `internSNK` only touches the manufacturers table. -/
theorem internSNK_machines (st : DbState) : (internSNK st).2.machines = st.machines := by
  unfold internSNK
  cases st.manufacturers.find? (fun m => m.name == "SNK") <;> rfl

/-- `internSNK` only touches the manufacturers table. -/
theorem internSNK_machine_roms (st : DbState) :
    (internSNK st).2.machine_roms = st.machine_roms := by
  unfold internSNK
  cases st.manufacturers.find? (fun m => m.name == "SNK") <;> rfl

/-- `internSNK` only touches the manufacturers table. -/
theorem internSNK_roms (st : DbState) : (internSNK st).2.roms = st.roms := by
  unfold internSNK
  cases st.manufacturers.find? (fun m => m.name == "SNK") <;> rfl

/-- `internSNK` only touches the manufacturers table. -/
theorem internSNK_rom_names (st : DbState) : (internSNK st).2.rom_names = st.rom_names := by
  unfold internSNK
  cases st.manufacturers.find? (fun m => m.name == "SNK") <;> rfl

/-- `internSNK` preserves the fresh machine id. -/
theorem internSNK_neogeoId (st : DbState) : neogeoId (internSNK st).2 = neogeoId st := by
  unfold neogeoId maxMachineId
  rw [internSNK_machines]

/-- Unique rom ids give a duplicate-free shared-BIOS set. -/
theorem biosRomIds_nodup (st : DbState) (T : Nat) (h : (st.roms.map (·.id)).Nodup) :
    (biosRomIds st T).Nodup := by
  unfold biosRomIds
  exact List.Nodup.sublist (List.Sublist.map _ (List.filter_sublist _)) h

/-- Filtering a duplicate-free list for one of its members yields exactly
that member. -/
theorem filter_beq_of_nodup : ∀ (l : List Nat) (a : Nat), l.Nodup → a ∈ l →
    l.filter (fun x => x == a) = [a] := by
  intro l
  induction l with
  | nil => intro a _ ha; cases ha
  | cons b t ih =>
    intro a hnd ha
    rcases List.mem_cons.mp ha with rfl | ha'
    · rw [List.filter_cons_of_pos (by simp)]
      have : t.filter (fun x => x == a) = [] := by
        rw [List.filter_eq_nil_iff]
        intro x hx hcon
        exact (List.nodup_cons.mp hnd).1 (by simpa using (beq_iff_eq.mp hcon) ▸ hx)
      rw [this]
    · have hba : ¬(b == a) = true := by
        intro hcon
        exact (List.nodup_cons.mp hnd).1 ((beq_iff_eq.mp hcon) ▸ ha')
      rw [List.filter_cons_of_neg (by simpa using hba)]
      exact ih a (List.nodup_cons.mp hnd).2 ha'

/-- C3: under the invariants established by ingestion (the first
`machine_roms` row of every ROM carries its canonical filename, rom ids
are unique, and every row's machine id belongs to an existing machine),
the shared-BIOS pass appends for every qualifying ROM exactly one
`machine_roms` row linking the synthetic `neogeo_bios` machine to it, and
that row's filename is the ROM's canonical `name_id`. -/
theorem c3_bios_link_unique_canonical (st : DbState) (T : Nat)
    (h1 : ∀ r ∈ st.roms, ∀ mr, st.machine_roms.find? (fun x => x.rom_id == r.id) = some mr →
      mr.name_id = r.name_id)
    (h2 : (st.roms.map (·.id)).Nodup)
    (h3 : ∀ mr ∈ st.machine_roms, ∃ m ∈ st.machines, m.id = mr.machine_id)
    (h4 : ∀ m ∈ st.machines, m.name ≠ "neogeo_bios")
    (rid : Nat) (hrid : rid ∈ biosRomIds st T)
    (r : RomRow) (hr : r ∈ st.roms) (hid : r.id = rid) :
    (extract_neogeo_bios T st).machine_roms.filter
        (fun mr => mr.machine_id == neogeoId st && mr.rom_id == rid) =
      [⟨neogeoId st, rid, r.name_id⟩] := by
  have hng : st.machines.any (fun m => m.name == "neogeo_bios") = false := by
    rw [List.any_eq_false]
    intro m hm
    simpa using h4 m hm
  have hbne : (biosRomIds st T).isEmpty = false := by
    cases hb : biosRomIds st T with
    | nil => rw [hb] at hrid; cases hrid
    | cons a t => rfl
  have hfind : ∃ mr0, st.machine_roms.find? (fun x => x.rom_id == rid) = some mr0 := by
    have hmemf := List.mem_filter.mp (List.mem_map.mp hrid).choose_spec.1
    rcases List.mem_map.mp hrid with ⟨r', hr', hidr'⟩
    have hp := (List.mem_filter.mp hr').2
    have hcount : T < st.machine_roms.countP (fun mr => mr.rom_id == r'.id) :=
      of_decide_eq_true hp
    have hpos : 0 < st.machine_roms.countP (fun mr => mr.rom_id == rid) := by
      rw [← hidr']
      omega
    rcases List.countP_pos_iff.mp hpos with ⟨mr0, hmr0, hpred⟩
    have hsome : (st.machine_roms.find? (fun x => x.rom_id == rid)).isSome :=
      List.find?_isSome.mpr ⟨mr0, hmr0, hpred⟩
    rcases Option.isSome_iff_exists.mp hsome with ⟨m0, hm0⟩
    exact ⟨m0, hm0⟩
  rcases hfind with ⟨mr0, hmr0⟩
  have hname : mr0.name_id = r.name_id := by
    apply h1 r hr
    rw [hid]
    exact hmr0
  have hngid : ∀ mr ∈ st.machine_roms, mr.machine_id ≠ neogeoId st := by
    intro mr hmr hcon
    rcases h3 mr hmr with ⟨m, hm, hmid⟩
    have : m.id ≤ maxMachineId st := mem_le_foldr_max (List.mem_map_of_mem (·.id) hm)
    rw [hmid, hcon] at this
    unfold neogeoId at this
    omega
  unfold extract_neogeo_bios
  rw [hng]
  simp only [Bool.false_eq_true, if_false, hbne]
  rw [internSNK_machine_roms, internSNK_neogeoId]
  rw [List.filter_filter, List.filter_append]
  have hold : st.machine_roms.filter
      (fun mr => (mr.machine_id == neogeoId st && mr.rom_id == rid) &&
        !(List.contains (biosRomIds st T) mr.rom_id && mr.machine_id != neogeoId st)) = [] := by
    rw [List.filter_eq_nil_iff]
    intro mr hmr hcon
    have h1b := (Bool.and_elim_left hcon)
    have : mr.machine_id = neogeoId st := by
      have := Bool.and_elim_left h1b
      simpa using this
    exact hngid mr hmr this
  rw [hold, List.nil_append]
  rw [List.filter_map]
  have hcomp : ((fun mr : MrRow =>
      (mr.machine_id == neogeoId st && mr.rom_id == rid) &&
        !(List.contains (biosRomIds st T) mr.rom_id && mr.machine_id != neogeoId st)) ∘
      (fun rid' => MrRow.mk (neogeoId st) rid'
        (((st.machine_roms.find? (fun mr => mr.rom_id == rid')).map (·.name_id)).getD 0))) =
      fun rid' => rid' == rid := by
    funext rid'
    simp
  rw [hcomp]
  rw [filter_beq_of_nodup _ rid (biosRomIds_nodup st T h2) hrid]
  simp only [List.map_cons, List.map_nil]
  rw [hmr0]
  simp [hname]

/-- A minimal database satisfying the ingestion invariants for the C3
witness: one ROM with canonical name 7, one machine, one row. -/
def c3wSt : DbState :=
  ⟨[], [⟨7, "a"⟩], [⟨1, [170], none, 11, 7⟩], [⟨5, "m", none, none, none, none, none⟩],
    [⟨5, 1, 7⟩]⟩

/-- Witness for C3 at a concrete database with threshold 0. -/
theorem c3_bios_link_unique_canonical_witness :
    (extract_neogeo_bios 0 c3wSt).machine_roms.filter
        (fun mr => mr.machine_id == neogeoId c3wSt && mr.rom_id == 1) =
      [⟨neogeoId c3wSt, 1, 7⟩] :=
  c3_bios_link_unique_canonical c3wSt 0 (by decide) (by decide) (by decide) (by decide)
    1 (by decide) ⟨1, [170], none, 11, 7⟩ (by decide) rfl

end Builder

namespace Builder

/-- Field-wise equality of database states. -/
theorem dbState_eq (a b : DbState) (h1 : a.manufacturers = b.manufacturers)
    (h2 : a.rom_names = b.rom_names) (h3 : a.roms = b.roms)
    (h4 : a.machines = b.machines) (h5 : a.machine_roms = b.machine_roms) : a = b := by
  cases a
  cases b
  simp_all

/-- `cleanup_orphans` never touches the `roms` table. -/
theorem cleanup_roms (st : DbState) : (cleanup_orphans st).roms = st.roms := rfl

/-- `cleanup_orphans` never touches the `machine_roms` table. -/
theorem cleanup_mrs (st : DbState) : (cleanup_orphans st).machine_roms = st.machine_roms := rfl

/-- The machines table after cleanup. -/
theorem cleanup_machines (st : DbState) :
    (cleanup_orphans st).machines = (machinesWithRows st).map (nullDangling (machinesWithRows st)) :=
  rfl

/-- The shared-BIOS classification reads only `roms` and `machine_roms`,
which cleanup preserves. -/
theorem biosRomIds_cleanup (st : DbState) (T : Nat) :
    biosRomIds (cleanup_orphans st) T = biosRomIds st T := rfl

/-- Nulling references preserves the machine id. -/
theorem nullDangling_id (ids : List MachineRow) (m : MachineRow) :
    (nullDangling ids m).id = m.id := rfl

/-- Membership in the surviving-machines list gives the row predicate. -/
theorem machinesWithRows_pred {st : DbState} {m : MachineRow} (hm : m ∈ machinesWithRows st) :
    st.machine_roms.any (fun mr => mr.machine_id == m.id) = true :=
  (List.mem_filter.mp hm).2

/-- Machines that survived one cleanup still have their row afterwards. -/
theorem machinesWithRows_cleanup (st : DbState) :
    machinesWithRows (cleanup_orphans st) =
      (machinesWithRows st).map (nullDangling (machinesWithRows st)) := by
  show ((cleanup_orphans st).machines).filter
      (fun m => (cleanup_orphans st).machine_roms.any (fun mr => mr.machine_id == m.id)) = _
  rw [cleanup_machines, cleanup_mrs]
  rw [List.filter_map]
  congr 1
  apply List.filter_eq_self.mpr
  intro m hm
  exact machinesWithRows_pred (m := m) hm

/-- `keepRef` on a present id, unfolded. -/
theorem keepRef_some (ids : List MachineRow) (c : Nat) :
    keepRef ids (some c) = if ids.any (fun x => x.id == c) then some c else none := rfl

/-- Re-nulling against the same id set is the identity. -/
theorem keepRef_idem (M1 : List MachineRow) (o : Option Nat) :
    keepRef (M1.map (nullDangling M1)) (keepRef M1 o) = keepRef M1 o := by
  cases o with
  | none => rfl
  | some c =>
    rw [keepRef_some M1 c]
    by_cases hc : M1.any (fun x => x.id == c) = true
    · rw [if_pos hc, keepRef_some]
      have hcond : (M1.map (nullDangling M1)).any (fun x => x.id == c) =
          M1.any (fun x => x.id == c) := by
        rw [List.any_map]
        rfl
      rw [hcond]
      exact if_pos hc
    · rw [if_neg hc]
      rfl

/-- Cleanup is idempotent. -/
theorem cleanup_idem (st : DbState) :
    cleanup_orphans (cleanup_orphans st) = cleanup_orphans st := by
  apply dbState_eq
  · show ((cleanup_orphans st).manufacturers).filter
        (fun f => (machinesWithRows (cleanup_orphans st)).any
          (fun m => m.manufacturer_id == some f.id)) =
      (cleanup_orphans st).manufacturers
    rw [List.filter_congr (fun f _ => (by
      rw [machinesWithRows_cleanup, List.any_map]; exact rfl :
        (machinesWithRows (cleanup_orphans st)).any
            (fun m => m.manufacturer_id == some f.id) =
          (machinesWithRows st).any (fun m => m.manufacturer_id == some f.id)))]
    apply List.filter_eq_self.mpr
    intro f hf
    exact (List.mem_filter.mp hf).2
  · show ((cleanup_orphans st).rom_names).filter
        (fun n => (cleanup_orphans st).roms.any (fun r => r.name_id == n.id) ||
          (cleanup_orphans st).machine_roms.any (fun mr => mr.name_id == n.id)) =
      (cleanup_orphans st).rom_names
    apply List.filter_eq_self.mpr
    intro n hn
    exact (List.mem_filter.mp hn).2
  · rfl
  · rw [cleanup_machines (cleanup_orphans st), machinesWithRows_cleanup, cleanup_machines]
    rw [List.map_map]
    apply List.map_congr_left
    intro m _
    show nullDangling ((machinesWithRows st).map (nullDangling (machinesWithRows st)))
        (nullDangling (machinesWithRows st) m) = nullDangling (machinesWithRows st) m
    obtain ⟨mid, mnm, mco, mro, mde, mye, mmf⟩ := m
    show MachineRow.mk mid mnm
        (keepRef ((machinesWithRows st).map (nullDangling (machinesWithRows st)))
          (keepRef (machinesWithRows st) mco))
        (keepRef ((machinesWithRows st).map (nullDangling (machinesWithRows st)))
          (keepRef (machinesWithRows st) mro)) mde mye mmf = _
    rw [keepRef_idem, keepRef_idem]
    rfl
  · rfl

end Builder

namespace Builder

/-- The pass exits early when a `neogeo_bios` machine exists. -/
theorem extract_of_any (T : Nat) (st : DbState)
    (hng : st.machines.any (fun m => m.name == "neogeo_bios") = true) :
    extract_neogeo_bios T st = st := by
  unfold extract_neogeo_bios
  rw [hng]
  rfl

/-- The pass exits early when no ROM qualifies. -/
theorem extract_of_no_bios (T : Nat) (st : DbState)
    (hng : st.machines.any (fun m => m.name == "neogeo_bios") = false)
    (hb : biosRomIds st T = []) :
    extract_neogeo_bios T st = st := by
  simp [extract_neogeo_bios, hng, hb]

/-- Cleanup only ever keeps machines, preserving their names. -/
theorem cleanup_machines_names {st : DbState} {m' : MachineRow}
    (hm : m' ∈ (cleanup_orphans st).machines) : ∃ m ∈ st.machines, m'.name = m.name := by
  rw [cleanup_machines] at hm
  rcases List.mem_map.mp hm with ⟨m, hmem, rfl⟩
  exact ⟨m, (List.mem_filter.mp hmem).1, rfl⟩

/-- A `neogeo_bios` machine that has a `machine_roms` row survives
cleanup. -/
theorem any_neogeo_cleanup (st : DbState) (m : MachineRow) (hm : m ∈ st.machines)
    (hname : m.name = "neogeo_bios") (mr : MrRow) (hmr : mr ∈ st.machine_roms)
    (hmid : mr.machine_id = m.id) :
    (cleanup_orphans st).machines.any (fun x => x.name == "neogeo_bios") = true := by
  rw [cleanup_machines, List.any_eq_true]
  refine ⟨nullDangling (machinesWithRows st) m, List.mem_map_of_mem _ ?_, ?_⟩
  · refine List.mem_filter.mpr ⟨hm, ?_⟩
    rw [List.any_eq_true]
    exact ⟨mr, hmr, by simp [hmid]⟩
  · show (m.name == "neogeo_bios") = true
    simp [hname]

/-- On the main path the pass adds the synthetic machine together with at
least one row linking it. -/
theorem extract_main_neogeo (T : Nat) (st : DbState)
    (hng : st.machines.any (fun m => m.name == "neogeo_bios") = false)
    (hbne : (biosRomIds st T).isEmpty = false) :
    ∃ m ∈ (extract_neogeo_bios T st).machines, m.name = "neogeo_bios" ∧
      ∃ mr ∈ (extract_neogeo_bios T st).machine_roms, mr.machine_id = m.id := by
  obtain ⟨rid0, bt, hbios⟩ : ∃ a t, biosRomIds st T = a :: t := by
    cases hb : biosRomIds st T with
    | nil => rw [hb] at hbne; cases hbne
    | cons a t => exact ⟨a, t, rfl⟩
  unfold extract_neogeo_bios
  rw [hng]
  simp only [Bool.false_eq_true, if_false, hbne]
  refine ⟨_, List.mem_append_right _ (List.mem_singleton.mpr rfl), rfl, ?_⟩
  refine ⟨_, List.mem_filter.mpr ⟨List.mem_append_right _
    (List.mem_map_of_mem _ (by rw [hbios]; exact List.mem_cons_self _ _)), ?_⟩, rfl⟩
  simp

/-- C8 (amended): the pass makes no change when a `neogeo_bios` machine
already exists, and the PostProcessor (shared-BIOS pass followed by orphan
cleanup) is idempotent on every catalogue in which any machine named
`neogeo_bios` is referenced by at least one `machine_roms` row — in
particular on every ingestion-produced catalogue.  Without that proviso a
`neogeo_bios` machine with no rows is deleted by cleanup, re-arming the
pass: see the counterexample. -/
theorem c8_postprocess_idempotent (T : Nat) (st : DbState)
    (h : ∀ m ∈ st.machines, m.name = "neogeo_bios" →
      ∃ mr ∈ st.machine_roms, mr.machine_id = m.id) :
    ((∃ m ∈ st.machines, m.name = "neogeo_bios") → extract_neogeo_bios T st = st) ∧
      postProcess T (postProcess T st) = postProcess T st := by
  have hearly : (∃ m ∈ st.machines, m.name = "neogeo_bios") →
      extract_neogeo_bios T st = st := by
    rintro ⟨m, hm, hname⟩
    apply extract_of_any
    rw [List.any_eq_true]
    exact ⟨m, hm, by simp [hname]⟩
  refine ⟨hearly, ?_⟩
  cases hany : st.machines.any (fun m => m.name == "neogeo_bios") with
  | true =>
    have hE : extract_neogeo_bios T st = st := extract_of_any T st hany
    rcases List.any_eq_true.mp hany with ⟨m, hm, hple⟩
    have hname : m.name = "neogeo_bios" := by simpa using hple
    rcases h m hm hname with ⟨mr, hmr, hmid⟩
    have hany2 := any_neogeo_cleanup st m hm hname mr hmr hmid
    have hE2 : extract_neogeo_bios T (cleanup_orphans st) = cleanup_orphans st :=
      extract_of_any T _ hany2
    show cleanup_orphans (extract_neogeo_bios T
      (cleanup_orphans (extract_neogeo_bios T st))) = _
    rw [hE, hE2, cleanup_idem]
    unfold postProcess
    rw [hE]
  | false =>
    cases hbios : (biosRomIds st T).isEmpty with
    | true =>
      have hb : biosRomIds st T = [] := List.isEmpty_iff.mp hbios
      have hE : extract_neogeo_bios T st = st := extract_of_no_bios T st hany hb
      have hany2 : (cleanup_orphans st).machines.any
          (fun x => x.name == "neogeo_bios") = false := by
        rw [List.any_eq_false]
        intro m' hm'
        rcases cleanup_machines_names hm' with ⟨m, hm, hnm⟩
        have hno := List.any_eq_false.mp hany m hm
        rw [hnm]
        exact hno
      have hb2 : biosRomIds (cleanup_orphans st) T = [] := by
        rw [biosRomIds_cleanup]
        exact hb
      have hE2 : extract_neogeo_bios T (cleanup_orphans st) = cleanup_orphans st :=
        extract_of_no_bios T _ hany2 hb2
      show cleanup_orphans (extract_neogeo_bios T
        (cleanup_orphans (extract_neogeo_bios T st))) = _
      rw [hE, hE2, cleanup_idem]
      unfold postProcess
      rw [hE]
    | false =>
      rcases extract_main_neogeo T st hany hbios with ⟨m, hmE, hnameE, mr, hmrE, hmidE⟩
      have hany2 := any_neogeo_cleanup (extract_neogeo_bios T st) m hmE hnameE mr hmrE hmidE
      have hE2 : extract_neogeo_bios T (cleanup_orphans (extract_neogeo_bios T st)) =
          cleanup_orphans (extract_neogeo_bios T st) := extract_of_any T _ hany2
      show cleanup_orphans (extract_neogeo_bios T
        (cleanup_orphans (extract_neogeo_bios T st))) = _
      rw [hE2, cleanup_idem]
      unfold postProcess
      rfl

end Builder

namespace Builder

/-- Filter of a replicate whose element fails the predicate. -/
theorem filter_replicate_neg (n : Nat) (a : α) (p : α → Bool) (h : p a = false) :
    (List.replicate n a).filter p = [] := by
  rw [List.filter_replicate, h]
  simp

/-- The C8 counterexample state: a machine named `neogeo_bios` with no
`machine_roms` row, plus a machine holding 4001 duplicate rows of one
ROM. -/
def c8St : DbState :=
  ⟨[], [⟨1, "a"⟩], [⟨1, [170], none, 11, 1⟩],
    [⟨1, "neogeo_bios", none, none, none, none, none⟩,
     ⟨2, "m", none, none, none, none, none⟩],
    List.replicate 4001 cxRow⟩

/-- The state after one PostProcessor run on `c8St`. -/
def c8Mid : DbState :=
  ⟨[], [⟨1, "a"⟩], [⟨1, [170], none, 11, 1⟩],
    [⟨2, "m", none, none, none, none, none⟩],
    List.replicate 4001 cxRow⟩

/-- The synthetic machine created by the second run. -/
def c8NgM : MachineRow := ⟨3, "neogeo_bios", none, none, some NEOGEO_DESC, some 1990, some 1⟩

/-- The state after the shared-BIOS pass of the second run. -/
def c8Ext : DbState :=
  ⟨[⟨1, "SNK"⟩], [⟨1, "a"⟩], [⟨1, [170], none, 11, 1⟩],
    [⟨2, "m", none, none, none, none, none⟩, c8NgM],
    [⟨3, 1, 1⟩]⟩

/-- First run: the pass exits early (a `neogeo_bios` machine exists) and
cleanup deletes that machine (it has no rows). -/
theorem c8_first_run : postProcess NEOGEO_BIOS_THRESHOLD c8St = c8Mid := by
  have hE : extract_neogeo_bios NEOGEO_BIOS_THRESHOLD c8St = c8St := by
    apply extract_of_any
    rfl
  unfold postProcess
  rw [hE]
  apply dbState_eq
  · rfl
  · rfl
  · rfl
  · rw [cleanup_machines]
    have h1 : ¬ ((List.replicate 4001 cxRow).any
        (fun mr => mr.machine_id == (1 : Nat)) = true) := by
      rw [any_replicate]
      decide
    have hmw : machinesWithRows c8St = [⟨2, "m", none, none, none, none, none⟩] := by
      show List.filter _ c8St.machines = _
      rw [show c8St.machines = [⟨1, "neogeo_bios", none, none, none, none, none⟩,
        ⟨2, "m", none, none, none, none, none⟩] from rfl]
      rw [List.filter_cons_of_neg (by exact h1)]
      rw [List.filter_cons_of_pos (by exact rfl)]
      rfl
    rw [hmw]
    rfl
  · rfl

/-- Second run, shared-BIOS pass: the `neogeo_bios` machine is gone, the
ROM qualifies through its 4001 duplicate rows, so the synthetic machine is
created and the duplicate rows are deleted. -/
theorem c8_second_extract :
    extract_neogeo_bios NEOGEO_BIOS_THRESHOLD c8Mid = c8Ext := by
  have hcount : (List.replicate 4001 cxRow).countP (fun mr => mr.rom_id == (1 : Nat)) = 4001 := by
    rw [List.countP_replicate]
    rfl
  have hbios : biosRomIds c8Mid NEOGEO_BIOS_THRESHOLD = [1] := by
    unfold biosRomIds
    rw [show c8Mid.roms = [⟨1, [170], none, 11, 1⟩] from rfl]
    rw [List.filter_cons_of_pos ?hp, List.filter_nil]
    · rfl
    case hp =>
      refine decide_eq_true ?_
      show NEOGEO_BIOS_THRESHOLD < c8Mid.machine_roms.countP _
      have : c8Mid.machine_roms.countP (fun mr => mr.rom_id == (1 : Nat)) = 4001 := hcount
      rw [this]
      norm_num [NEOGEO_BIOS_THRESHOLD]
  have hanyf : c8Mid.machines.any (fun m => m.name == "neogeo_bios") = false := rfl
  unfold extract_neogeo_bios
  rw [hanyf]
  simp only [Bool.false_eq_true, if_false, hbios]
  rw [show ([1] : List Nat).isEmpty = false from rfl]
  simp only [Bool.false_eq_true, if_false]
  apply dbState_eq
  · rfl
  · rfl
  · rfl
  · rfl
  · rw [show (internSNK c8Mid).2.machine_roms = List.replicate 4001 cxRow from rfl]
    rw [List.filter_append]
    rw [filter_replicate_neg 4001 cxRow _ (by decide)]
    rfl

/-- Second run: `postProcess` on the once-processed state re-creates the
synthetic machine and deletes machine `m` (left with no rows). -/
theorem c8_second_run :
    postProcess NEOGEO_BIOS_THRESHOLD c8Mid =
      ⟨[⟨1, "SNK"⟩], [⟨1, "a"⟩], [⟨1, [170], none, 11, 1⟩], [c8NgM], [⟨3, 1, 1⟩]⟩ := by
  unfold postProcess
  rw [c8_second_extract]
  rfl

/-- C8 counterexample: with the default threshold, running the
PostProcessor twice on `c8St` does not equal running it once (the first
run ends with machine `m` alone; the second ends with `neogeo_bios`
alone). -/
theorem c8_counterexample :
    postProcess NEOGEO_BIOS_THRESHOLD (postProcess NEOGEO_BIOS_THRESHOLD c8St) ≠
      postProcess NEOGEO_BIOS_THRESHOLD c8St := by
  rw [c8_first_run, c8_second_run]
  intro hcon
  have hnames := congrArg (fun s : DbState => s.machines.map (·.name)) hcon
  simp only [c8Mid, c8NgM, List.map_cons, List.map_nil] at hnames
  exact absurd hnames (by decide)

/-- Witness for C8 (amended) at a concrete state whose `neogeo_bios`
machine has a row. -/
theorem c8_postprocess_idempotent_witness :
    ((∃ m ∈ c3wSt.machines, m.name = "neogeo_bios") →
      extract_neogeo_bios 0 c3wSt = c3wSt) ∧
      postProcess 0 (postProcess 0 c3wSt) = postProcess 0 c3wSt :=
  c8_postprocess_idempotent 0 c3wSt (by decide)

end Builder
